import Mathlib

/-! # AC-Modern: course navigation scripts

A shallow embedding of the two front-end controllers of the repository:

* `src/curs13/js/script.js`, the Course Shell Controller (namespace `Curs13`);
* `src/curs14/js/lesson.js`, the Lesson Page Navigator (namespace `Curs14`).

The module-level variables of each script become fields of an explicit state
record and every function becomes a pure function on that record.  JavaScript
numbers that serve as indices are integers (`Int`); the one place where the
scripts do real floating-point arithmetic, the progress percentage
`Math.round((size / length) * 100)`, is embedded bit-exactly in `JsNumber`.

The strings kept in `localStorage` are modelled up to what `JSON.parse` makes
of them: text that is not JSON, or the JSON text of a value of the documented
shape (`{completed: number[], currentIndex: number}` with either field possibly
missing, respectively `number[]`) whose numbers are integers.  Stored values of
other JavaScript types (strings, fractions, nested objects) are outside the
model.

Not modelled: CSS classes of chapter groups, the asynchronous `loadContent`
fetch and the markup it injects, the sidebar toggle, the scroll-to-top button.
-/

/-! ## IEEE-754 double arithmetic on positive rationals -/

namespace JsNumber

/-- Position of the leading binary digit: `bitLog fuel n` is `⌊log₂ n⌋` once
`fuel` is at least the number of binary digits of `n`. -/
def bitLog : Nat → Nat → Nat
  | 0, _ => 0
  | fuel + 1, n => if 2 ≤ n then bitLog fuel (n / 2) + 1 else 0

/-- The integer `⌊log₂ n⌋` for positive `n` (and `0` for `n = 0`). -/
def log2 (n : Nat) : Nat := bitLog n n

/-- The exponent `E` with `2^E ≤ a/b < 2^(E+1)`, for positive `a` and `b`. -/
def floorLog2Ratio (a b : Nat) : Int :=
  let e : Int := (log2 a : Int) - (log2 b : Int)
  if b * 2 ^ e.toNat ≤ a * 2 ^ (-e).toNat then e else e - 1

/-- Nearest integer to `num / den`, ties going to the even neighbour. -/
def roundHalfEven (num den : Nat) : Nat :=
  let q := num / den
  let r := num % den
  if 2 * r < den then q
  else if den < 2 * r then q + 1
  else if q % 2 = 0 then q else q + 1

/-- The double nearest to the positive rational `a / b` (round to nearest, ties
to even, 53-bit significand), returned as a fraction `(numerator, denominator)`
whose denominator is a power of two.  Exponent range is not limited: every
quotient and product formed by the scripts lies far inside the normal range. -/
def fl (a b : Nat) : Nat × Nat :=
  let s : Int := 52 - floorLog2Ratio a b
  let m := roundHalfEven (a * 2 ^ s.toNat) (b * 2 ^ (-s).toNat)
  (m * 2 ^ (-s).toNat, 2 ^ s.toNat)

/-- What `Math.round` can return for the quotients the scripts form. -/
inductive Rounded where
  | nan
  | infinity
  | int (v : Nat)
  deriving DecidableEq, Repr

/-- The expression `Math.round((size / length) * 100)` of `updateProgress` and
`getProgress`: the double quotient, the double product with 100, then
`Math.round`, which is `floor(x + 1/2)` computed exactly.  A `Set` size and an
array length are integers below `2^53`, hence doubles themselves.  A zero
length gives `0 / 0 = NaN` or `size / 0 = Infinity`, which `Math.round`
returns as they are. -/
def percent (size length : Nat) : Rounded :=
  if length = 0 then (if size = 0 then .nan else .infinity)
  else if size = 0 then .int 0
  else
    let q := fl size length
    let p := fl (q.1 * 100) q.2
    .int ((2 * p.1 + p.2) / (2 * p.2))

/-- The integer nearest to the exact rational `100 * size / length`, halves
going up: the value the formula `round(100 × |completed| / lessonCount)`
denotes when it is read over the rationals. -/
def exactPercent (size length : Nat) : Nat :=
  (200 * size + length) / (2 * length)

end JsNumber

/-! ## Course Shell Controller (`src/curs13/js/script.js`) -/

namespace Curs13

/-- `Set.prototype.add` on a `Set` of numbers held in insertion order. -/
def setAdd (s : List Int) (x : Int) : List Int :=
  if x ∈ s then s else s ++ [x]

/-- `new Set(array)`: the elements are added one after the other. -/
def setFrom (xs : List Int) : List Int :=
  xs.foldl setAdd []

/-- A string held under the key `'curs13_progress'`, up to what `JSON.parse`
makes of it: either text that is not JSON, or the JSON text of an object whose
fields `completed` (an array of integers) and `currentIndex` (an integer) may
each be missing. -/
inductive Payload where
  | malformed (text : String)
  | progress (completed : Option (List Int)) (currentIndex : Option Int)
  deriving DecidableEq, Repr

/-- Truthiness of the stored string in `if (saved)`: only the empty string is
falsy, and JSON text is never empty. -/
def Payload.truthy : Payload → Bool
  | .malformed text => text != ""
  | .progress _ _ => true

/-- `JSON.parse(saved)`: `none` stands for the thrown `SyntaxError`. -/
def jsonParse : Payload → Option (Option (List Int) × Option Int)
  | .malformed _ => none
  | .progress completed currentIndex => some (completed, currentIndex)

/-- `JSON.stringify({ completed: ..., currentIndex: ... })`. -/
def jsonStringify (completed : List Int) (currentIndex : Int) : Payload :=
  .progress (some completed) (some currentIndex)

/-- Handler installed on the forward button by `updateNavigationButtons`. -/
inductive NextAction where
  | showCompletionModal
  | navigateNext
  deriving DecidableEq, Repr

/-- The forward button `btnNext`: its `disabled` flag, the text of its label and
its `onclick` handler (`none` until `updateNavigationButtons` first sets it). -/
structure NextButton where
  disabled : Bool
  label : String
  onclick : Option NextAction
  deriving DecidableEq, Repr

/-- The part of the page the script writes to.  An element the page does not
have is `none` (its `getElementById` returned `null`), and every write to it
is skipped by the `if (element)` guard of the source. -/
structure Dom where
  /-- Index of the sidebar link that carries the class `active`. -/
  active : Option Int
  /-- For each lesson in order, whether its link carries the class `completed`. -/
  completedMarks : List Bool
  /-- Flag `btnPrev.disabled`. -/
  btnPrev : Option Bool
  btnNext : Option NextButton
  /-- Percentage in `progressBar.style.width`. -/
  progressBar : Option JsNumber.Rounded
  /-- Percentage in `progressPercent.textContent`. -/
  progressPercent : Option JsNumber.Rounded
  /-- Whether `congratsModal` carries the class `active`. -/
  congratsModal : Option Bool
  deriving DecidableEq, Repr

/-- The module state of `script.js` together with what it reads and writes. -/
structure State where
  /-- Value `lessons.length`, fixed by `buildLessonsList`. -/
  lessonCount : Nat
  currentIndex : Int
  completedLessons : List Int
  /-- Entry of `localStorage` under `'curs13_progress'`. -/
  storage : Option Payload
  dom : Dom
  deriving DecidableEq, Repr

/-- The test `lessons[index]` is truthy, and the negation of
`index < 0 || index >= lessons.length`. -/
def inRange (s : State) (index : Int) : Bool :=
  decide (0 ≤ index) && decide (index < (s.lessonCount : Int))

def saveProgress (s : State) : State :=
  { s with storage := some (jsonStringify s.completedLessons s.currentIndex) }

def updateNavigationButtons (s : State) : State :=
  let btnPrev := s.dom.btnPrev.map (fun _ => decide (s.currentIndex = 0))
  let isLast := decide (s.currentIndex = (s.lessonCount : Int) - 1)
  let btnNext := s.dom.btnNext.map (fun _ =>
    if isLast then
      { disabled := false, label := "Finalizare", onclick := some .showCompletionModal }
    else
      { disabled := false, label := "Următorul", onclick := some .navigateNext })
  { s with dom := { s.dom with btnPrev := btnPrev, btnNext := btnNext } }

def updateProgress (s : State) : State :=
  let percent := JsNumber.percent s.completedLessons.length s.lessonCount
  { s with dom := { s.dom with
      progressBar := s.dom.progressBar.map (fun _ => percent)
      progressPercent := s.dom.progressPercent.map (fun _ => percent)
      completedMarks := (List.range s.lessonCount).map
        (fun index => decide ((index : Int) ∈ s.completedLessons)) } }

def updateUI (s : State) : State :=
  updateProgress (updateNavigationButtons s)

/-- Function `navigateToLesson(index, markComplete)`; a call of the source that
leaves `markComplete` out passes `true`. -/
def navigateToLesson (s : State) (index : Int) (markComplete : Bool) : State :=
  if index < 0 ∨ index ≥ (s.lessonCount : Int) then s
  else
    let completed :=
      if markComplete ∧ s.currentIndex ≠ index then setAdd s.completedLessons s.currentIndex
      else s.completedLessons
    let s1 : State :=
      { s with completedLessons := completed, currentIndex := index,
               dom := { s.dom with active := some index } }
    saveProgress (updateUI s1)

def loadProgress (s : State) : State :=
  let s1 : State :=
    match s.storage with
    | none => s
    | some saved =>
      if saved.truthy then
        match jsonParse saved with
        | some (completed, currentIndex) =>
          { s with completedLessons := setFrom (completed.getD []),
                   currentIndex :=
                     match currentIndex with
                     | none => 0
                     | some v => if v = 0 then 0 else v }
        | none => s
      else s
  if inRange s1 s1.currentIndex then navigateToLesson s1 s1.currentIndex false else s1

def showCompletionModal (s : State) : State :=
  let s1 := saveProgress { s with completedLessons := setAdd s.completedLessons s.currentIndex }
  { s1 with dom := { s1.dom with congratsModal := s1.dom.congratsModal.map (fun _ => true) } }

def resetCourse (s : State) : State :=
  let s1 : State :=
    { s with completedLessons := [], currentIndex := 0, storage := none,
             dom := { s.dom with congratsModal := s.dom.congratsModal.map (fun _ => false) } }
  navigateToLesson s1 0 false

/-- Value of `e.key` as far as the `keydown` listener tells keys apart. -/
inductive Key where
  | arrowLeft
  | arrowRight
  | other
  deriving DecidableEq, Repr

/-- The `keydown` listener; `focusInText` says that `document.activeElement` is
an `INPUT` or a `TEXTAREA`. -/
def handleKeyboardNavigation (s : State) (focusInText : Bool) (key : Key) : State :=
  if focusInText then s
  else if key = .arrowLeft ∧ s.currentIndex > 0 then navigateToLesson s (s.currentIndex - 1) true
  else if key = .arrowRight ∧ s.currentIndex < (s.lessonCount : Int) - 1 then
    navigateToLesson s (s.currentIndex + 1) true
  else s

/-- Click on `btnPrev`: the listener of `setupEventListeners`.  The browser
dispatches no click on a disabled button; `updateNavigationButtons` disables
this one when `currentIndex` is 0, where the listener changes nothing. -/
def clickPrev (s : State) : State :=
  match s.dom.btnPrev with
  | none => s
  | some _ => navigateToLesson s (s.currentIndex - 1) true

/-- Click on `btnNext`: runs whatever `updateNavigationButtons` last stored in
`btnNext.onclick`. -/
def clickNext (s : State) : State :=
  match s.dom.btnNext with
  | none => s
  | some button =>
    match button.onclick with
    | none => s
    | some .showCompletionModal => showCompletionModal s
    | some .navigateNext => navigateToLesson s (s.currentIndex + 1) true

/-- Click on the overlay of `congratsModal`. -/
def clickOverlay (s : State) : State :=
  { s with dom := { s.dom with congratsModal := s.dom.congratsModal.map (fun _ => false) } }

/-- Function `init` on a page with `lessonCount` sidebar links: the module
variables start at `currentIndex = 0` and an empty `completedLessons`;
`buildLessonsList` fixes `lessons`, then `loadProgress` and `updateUI` run
(`setupEventListeners` only registers the handlers above). -/
def init (lessonCount : Nat) (storage : Option Payload) (dom : Dom) : State :=
  updateUI (loadProgress
    { lessonCount := lessonCount, currentIndex := 0, completedLessons := [],
      storage := storage, dom := dom })

/-- User events of the course page after `init`. -/
inductive Event where
  /-- Click on the sidebar link of lesson `index`, or any call
  `navigateToLesson(index, markComplete)`. -/
  | navigate (index : Int) (markComplete : Bool)
  | prev
  | next
  | reset
  | overlay
  | keydown (focusInText : Bool) (key : Key)
  deriving DecidableEq, Repr

def step (s : State) : Event → State
  | .navigate index markComplete => navigateToLesson s index markComplete
  | .prev => clickPrev s
  | .next => clickNext s
  | .reset => resetCourse s
  | .overlay => clickOverlay s
  | .keydown focusInText key => handleKeyboardNavigation s focusInText key

/-- The state after `init` and a sequence of events. -/
def run (lessonCount : Nat) (storage : Option Payload) (dom : Dom) (events : List Event) : State :=
  events.foldl step (init lessonCount storage dom)

/-- A page that has every element the script looks up. -/
def fullDom : Dom :=
  { active := none, completedMarks := [], btnPrev := some false,
    btnNext := some { disabled := false, label := "Următorul", onclick := none },
    progressBar := some (.int 0), progressPercent := some (.int 0),
    congratsModal := some false }

/-- The page has the previous button, and the forward button carries the
handler that `updateNavigationButtons` installs for the current index. -/
def buttonsSynced (s : State) : Prop :=
  s.dom.btnPrev.isSome = true ∧
  s.dom.btnNext.bind (fun button => button.onclick) =
    some (if s.currentIndex = (s.lessonCount : Int) - 1 then NextAction.showCompletionModal
      else NextAction.navigateNext)

instance (s : State) : Decidable (buttonsSynced s) := by
  unfold buttonsSynced
  infer_instance

end Curs13

/-! ## Lesson Page Navigator (`src/curs14/js/lesson.js`) -/

namespace Curs14

/-- An entry of the constant `lessons`. -/
structure Lesson where
  id : String
  title : String
  src : String
  deriving DecidableEq, Repr

/-- The constant `lessons`: all lessons in order. -/
def lessons : List Lesson :=
  [ { id := "14.1.1", title := "Introducere în Ierarhia de Memorie", src := "../14.1.1/index.html" },
    { id := "14.1.2", title := "Localitate Temporală și Spațială", src := "../14.1.2/index.html" },
    { id := "14.1.3", title := "Niveluri de Memorie", src := "../14.1.3/index.html" },
    { id := "14.2.1", title := "Structura Cache-ului", src := "../14.2.1/index.html" },
    { id := "14.2.2", title := "Mapare Directă", src := "../14.2.2/index.html" },
    { id := "14.2.3", title := "Mapare Asociativă", src := "../14.2.3/index.html" },
    { id := "14.2.4", title := "Politici de Înlocuire", src := "../14.2.4/index.html" },
    { id := "14.3.1", title := "Hit Rate și Miss Rate", src := "../14.3.1/index.html" },
    { id := "14.3.2", title := "Tipuri de Miss-uri", src := "../14.3.2/index.html" },
    { id := "14.3.3", title := "Optimizări Cache", src := "../14.3.3/index.html" },
    { id := "14.4.1", title := "Concepte de Bază", src := "../14.4.1/index.html" },
    { id := "14.4.2", title := "Paginare și Segmentare", src := "../14.4.2/index.html" },
    { id := "14.4.3", title := "Translation Lookaside Buffer", src := "../14.4.3/index.html" } ]

/-- Search of `String.prototype.includes` on character lists: whether `pat`
occurs in `text` as a block of consecutive characters. -/
def includesChars (pat : List Char) : List Char → Bool
  | [] => pat.isEmpty
  | c :: cs => pat.isPrefixOf (c :: cs) || includesChars pat cs

/-- The call `path.includes(id)`. -/
def includes (path id : String) : Bool :=
  includesChars id.data path.data

/-- The loop of `getCurrentLessonIndex` from index `i` on, over the entries
`rest` that are left. -/
def scanFrom (path : String) : List Lesson → Nat → Int
  | [], _ => -1
  | lesson :: rest, i => if includes path lesson.id then (i : Int) else scanFrom path rest (i + 1)

/-- Function `getCurrentLessonIndex`, with `window.location.pathname` passed
in as `path`. -/
def getCurrentLessonIndex (path : String) : Int :=
  scanFrom path lessons 0

/-- A string held under the key `'curs14_completed'`, up to what `JSON.parse`
makes of it: text that is not JSON, or the JSON text of an array of integers. -/
inductive Stored where
  | malformed (text : String)
  | array (items : List Int)
  deriving DecidableEq, Repr

/-- An exception that escapes the script. -/
inductive JsError where
  | syntaxError
  deriving DecidableEq, Repr

/-- The expression `JSON.parse(localStorage.getItem('curs14_completed') || '[]')`:
a missing entry and the empty string both give the empty array. -/
def readCompleted : Option Stored → Except JsError (List Int)
  | none => .ok []
  | some (.array items) => .ok items
  | some (.malformed text) => if text = "" then .ok [] else .error .syntaxError

/-- Function `markCompleted`; the result is the entry under `'curs14_completed'`
afterwards. -/
def markCompleted (storage : Option Stored) (index : Int) : Except JsError (Option Stored) :=
  match readCompleted storage with
  | .error e => .error e
  | .ok completed =>
    if index ∈ completed then .ok storage
    else .ok (some (.array (completed ++ [index])))

/-- Function `getProgress`. -/
def getProgress (storage : Option Stored) : Except JsError JsNumber.Rounded :=
  match readCompleted storage with
  | .error e => .error e
  | .ok completed => .ok (JsNumber.percent completed.length lessons.length)

/-- An `<a>` element of the navigation bar. -/
structure Anchor where
  href : String
  title : String
  text : String
  deriving DecidableEq, Repr

/-- The previous slot of the bar: a link, or the `<span class="btn-nav disabled">`. -/
inductive PrevSlot where
  | link (a : Anchor)
  | disabled (text : String)
  deriving DecidableEq, Repr

/-- The `<nav class="lesson-nav">` that `createNavBar` appends to the page. -/
structure NavBar where
  prev : PrevSlot
  /-- Text of the `<strong>` element. -/
  label : String
  /-- Percentage shown after `Progres:`. -/
  progress : JsNumber.Rounded
  home : Anchor
  next : Anchor
  deriving DecidableEq, Repr

/-- Function `createNavBar` on the page at `path`: the entry under
`'curs14_completed'` afterwards and the bar appended to the page, if any. -/
def createNavBar (path : String) (storage : Option Stored) :
    Except JsError (Option Stored × Option NavBar) :=
  let currentIndex := getCurrentLessonIndex path
  if currentIndex = -1 then .ok (storage, none)
  else
    match markCompleted storage currentIndex with
    | .error e => .error e
    | .ok storage1 =>
      let prevLesson : Option Lesson :=
        if currentIndex > 0 then lessons.get? (currentIndex - 1).toNat else none
      let nextLesson : Option Lesson :=
        if currentIndex < (lessons.length : Int) - 1 then lessons.get? (currentIndex + 1).toNat
        else none
      match getProgress storage1 with
      | .error e => .error e
      | .ok progress =>
        .ok (storage1, some
          { prev :=
              match prevLesson with
              | some lesson => .link { href := lesson.src, title := lesson.title, text := "Înapoi" }
              | none => .disabled "Înapoi"
            label := "Lecția " ++ toString (currentIndex + 1) ++ " / " ++ toString lessons.length
            progress := progress
            home := { href := "../../html/main.html", title := "Cuprins", text := "Cuprins" }
            next :=
              match nextLesson with
              | some lesson => { href := lesson.src, title := lesson.title, text := "Următorul" }
              | none => { href := "../../html/main.html", title := "Finalizare", text := "Finalizare" } })

end Curs14

/-! ## Theorems: double arithmetic -/

namespace JsNumber

theorem bitLog_spec (fuel n : Nat) (h1 : 1 ≤ n) (hf : n < 2 ^ fuel) :
    2 ^ bitLog fuel n ≤ n ∧ n < 2 ^ (bitLog fuel n + 1) := by
  induction fuel generalizing n with
  | zero => simp at hf; omega
  | succ f ih =>
    unfold bitLog
    split
    · rename_i h2
      have hlt : n / 2 < 2 ^ f := by
        apply Nat.div_lt_of_lt_mul
        rw [pow_succ] at hf
        omega
      obtain ⟨hl, hu⟩ := ih (n / 2) (by omega) hlt
      rw [pow_succ, pow_succ] 
      rw [pow_succ] at hu
      constructor <;> omega
    · simp
      omega

theorem log2_spec (n : Nat) (h1 : 1 ≤ n) : 2 ^ log2 n ≤ n ∧ n < 2 ^ (log2 n + 1) :=
  bitLog_spec n n h1 (Nat.lt_two_pow n)

theorem two_zpow_toNat (s : Int) : (2 : ℚ) ^ s.toNat / (2 : ℚ) ^ (-s).toNat = (2 : ℚ) ^ s := by
  rcases le_total 0 s with h | h
  · have h1 : (-s).toNat = 0 := Int.toNat_eq_zero.mpr (by omega)
    have h2 : ((s.toNat : ℕ) : ℤ) = s := Int.toNat_of_nonneg h
    rw [h1, pow_zero, div_one, ← zpow_natCast, h2]
  · have h1 : s.toNat = 0 := Int.toNat_eq_zero.mpr h
    have h2 : (((-s).toNat : ℕ) : ℤ) = -s := Int.toNat_of_nonneg (by omega)
    rw [h1, pow_zero, ← zpow_natCast, h2, zpow_neg, one_div, inv_inv]

theorem floorLog2Ratio_le (a b : Nat) (ha : 1 ≤ a) (hb : 1 ≤ b) :
    (2 : ℚ) ^ floorLog2Ratio a b ≤ (a : ℚ) / b := by
  have hbq : (0 : ℚ) < b := by exact_mod_cast hb
  obtain ⟨hal, _⟩ := log2_spec a ha
  obtain ⟨_, hbu⟩ := log2_spec b hb
  unfold floorLog2Ratio
  simp only
  split
  · rename_i hc
    rw [← two_zpow_toNat, div_le_div_iff₀ (by positivity) hbq]
    have : ((b * 2 ^ ((log2 a : ℤ) - (log2 b : ℤ)).toNat : ℕ) : ℚ)
        ≤ ((a * 2 ^ (-((log2 a : ℤ) - (log2 b : ℤ))).toNat : ℕ) : ℚ) := by exact_mod_cast hc
    push_cast at this
    linarith
  · have he : (log2 a : ℤ) - (log2 b : ℤ) - 1 = (log2 a : ℤ) - ((log2 b + 1 : ℕ) : ℤ) := by
      push_cast; ring
    rw [he, zpow_sub₀ (by norm_num), zpow_natCast, zpow_natCast,
      div_le_div_iff₀ (by positivity) hbq]
    have h1 : ((2 ^ log2 a : ℕ) : ℚ) ≤ a := by exact_mod_cast hal
    have h2 : ((b : ℕ) : ℚ) ≤ ((2 ^ (log2 b + 1) : ℕ) : ℚ) := by exact_mod_cast hbu.le
    push_cast at h1 h2
    calc (2 : ℚ) ^ log2 a * b ≤ a * b := by
          apply mul_le_mul_of_nonneg_right h1 hbq.le
      _ ≤ a * 2 ^ (log2 b + 1) := by
          apply mul_le_mul_of_nonneg_left h2
          positivity

theorem roundHalfEven_err (A B : Nat) (hB : 0 < B) :
    |(roundHalfEven A B : ℚ) - (A : ℚ) / B| ≤ 1 / 2 := by
  have hBq : (0 : ℚ) < B := by exact_mod_cast hB
  have hdm : (A : ℚ) = B * (A / B : ℕ) + (A % B : ℕ) := by exact_mod_cast (Nat.div_add_mod A B).symm
  have hr : ((A % B : ℕ) : ℚ) < B := by exact_mod_cast Nat.mod_lt A hB
  have hr0 : (0 : ℚ) ≤ ((A % B : ℕ) : ℚ) := by positivity
  have key : ∀ m : ℚ, (2 * m - 1) * B ≤ 2 * A → 2 * A ≤ (2 * m + 1) * B →
      |m - (A : ℚ) / B| ≤ 1 / 2 := by
    intro m h1 h2
    have hx : (A : ℚ) / B * B = A := div_mul_cancel₀ _ hBq.ne'
    have hlo : 2 * m - 1 ≤ 2 * ((A : ℚ) / B) :=
      le_of_mul_le_mul_right (h1.trans_eq (by rw [mul_assoc, hx])) hBq
    have hhi : 2 * ((A : ℚ) / B) ≤ 2 * m + 1 :=
      le_of_mul_le_mul_right (le_of_eq_of_le (by rw [mul_assoc, hx]) h2) hBq
    rw [abs_le]
    constructor <;> linarith
  unfold roundHalfEven
  simp only
  split
  · rename_i h
    have h' : (2 : ℚ) * ((A % B : ℕ) : ℚ) < B := by exact_mod_cast h
    apply key <;> linarith
  · split
    · rename_i _ h
      have h' : (B : ℚ) < 2 * ((A % B : ℕ) : ℚ) := by exact_mod_cast h
      push_cast
      apply key <;> linarith
    · rename_i h1 h2
      have h' : (B : ℚ) = 2 * ((A % B : ℕ) : ℚ) := by
        have : B = 2 * (A % B) := by omega
        exact_mod_cast this
      split
      · apply key <;> linarith
      · push_cast
        apply key <;> linarith

theorem fl_spec (a b : Nat) (ha : 1 ≤ a) (hb : 1 ≤ b) :
    0 < (fl a b).1 ∧ 0 < (fl a b).2 ∧
    |((fl a b).1 : ℚ) / (fl a b).2 - (a : ℚ) / b| ≤ (a : ℚ) / b / 2 ^ 53 := by
  have haq : (0 : ℚ) < a := by exact_mod_cast ha
  have hbq : (0 : ℚ) < b := by exact_mod_cast hb
  have hE := floorLog2Ratio_le a b ha hb
  unfold fl
  simp only
  generalize hs : (52 : ℤ) - floorLog2Ratio a b = s
  have hE' : floorLog2Ratio a b = 52 - s := by omega
  rw [hE'] at hE
  set P : ℕ := 2 ^ s.toNat with hP
  set Q : ℕ := 2 ^ (-s).toNat with hQ
  have hPpos : 0 < P := by positivity
  have hQpos : 0 < Q := by positivity
  have hPq : (0 : ℚ) < P := by exact_mod_cast hPpos
  have hQq : (0 : ℚ) < Q := by exact_mod_cast hQpos
  have hPQ : (P : ℚ) / Q = (2 : ℚ) ^ s := by
    rw [hP, hQ]
    push_cast
    exact two_zpow_toNat s
  have herr := roundHalfEven_err (a * P) (b * Q) (Nat.mul_pos hb hQpos)
  set m := roundHalfEven (a * P) (b * Q) with hm
  -- the scaled quotient is at least 2^52
  have ht : (2 : ℚ) ^ 52 ≤ ((a * P : ℕ) : ℚ) / ((b * Q : ℕ) : ℚ) := by
    push_cast
    have : (a : ℚ) * P / (b * Q) = (a : ℚ) / b * ((P : ℚ) / Q) := by
      field_simp
    rw [this, hPQ]
    have h2s : (0 : ℚ) < (2 : ℚ) ^ s := by positivity
    calc (2 : ℚ) ^ 52 = (2 : ℚ) ^ (52 - s) * (2 : ℚ) ^ s := by
          rw [← zpow_add₀ (by norm_num)]
          norm_num
      _ ≤ (a : ℚ) / b * (2 : ℚ) ^ s := by
          apply mul_le_mul_of_nonneg_right hE h2s.le
  set t : ℚ := ((a * P : ℕ) : ℚ) / ((b * Q : ℕ) : ℚ) with htdef
  have hab : (a : ℚ) / b = t * ((Q : ℚ) / P) := by
    rw [htdef]
    push_cast
    field_simp
    ring
  have hmq : (0 : ℚ) < m := by
    have := (abs_le.mp herr).1
    have h52 : (1 : ℚ) ≤ 2 ^ 52 := by norm_num
    linarith
  have hmpos : 0 < m := by exact_mod_cast hmq
  have hQP : (0 : ℚ) < (Q : ℚ) / P := div_pos hQq hPq
  refine ⟨Nat.mul_pos hmpos hQpos, hPpos, ?_⟩
  have hv : ((m * Q : ℕ) : ℚ) / P - (a : ℚ) / b = ((m : ℚ) - t) * ((Q : ℚ) / P) := by
    rw [hab]
    push_cast
    ring
  rw [hv, abs_mul, abs_of_pos hQP, hab]
  have h1 : |(m : ℚ) - t| * ((Q : ℚ) / P) ≤ 1 / 2 * ((Q : ℚ) / P) :=
    mul_le_mul_of_nonneg_right herr hQP.le
  have h2 : (2 : ℚ) ^ 52 * ((Q : ℚ) / P) ≤ t * ((Q : ℚ) / P) :=
    mul_le_mul_of_nonneg_right ht hQP.le
  rw [le_div_iff₀ (by norm_num)]
  have h3 : (2 : ℚ) ^ 53 = 2 * 2 ^ 52 := by norm_num
  rw [h3]
  nlinarith [h1, h2, hQP]

/-- For a nonempty completed set of fewer than `2^44` elements the double
product `(k / n) * 100` lies within `1 / (2 n)` of the exact `100 k / n`. -/
theorem percent_close (k n : Nat) (hn : 0 < n) (hk0 : k ≠ 0) (hk : k < 2 ^ 44) :
    ∃ p : ℕ × ℕ, percent k n = .int ((2 * p.1 + p.2) / (2 * p.2)) ∧ 0 < p.2 ∧
      |(p.1 : ℚ) / p.2 - 100 * ((k : ℚ) / n)| < 1 / (2 * n) := by
  unfold percent
  rw [if_neg (by omega), if_neg hk0]
  simp only
  obtain ⟨hq1, hq2, hqerr⟩ := fl_spec k n (by omega) (by omega)
  generalize fl k n = q at hq1 hq2 hqerr ⊢
  obtain ⟨_, hp2, hperr⟩ := fl_spec (q.1 * 100) q.2 (by omega) (by omega)
  generalize fl (q.1 * 100) q.2 = p at hp2 hperr ⊢
  refine ⟨p, rfl, hp2, ?_⟩
  have hnq : (0 : ℚ) < n := by exact_mod_cast hn
  have hkq : (k : ℚ) ≤ 2 ^ 44 := by exact_mod_cast hk.le
  set d : ℚ := 1 / (2 * n) with hd
  have hdpos : 0 < d := by positivity
  set y : ℚ := (k : ℚ) / n with hy
  have hyk : y = 2 * k * d := by
    rw [hy, hd]; field_simp; ring
  have hy0 : 0 ≤ y := by positivity
  have hyd : y ≤ 2 ^ 45 * d := by
    rw [hyk]
    have := mul_le_mul_of_nonneg_right hkq hdpos.le
    linarith
  set x1 : ℚ := (q.1 : ℚ) / q.2 with hx1
  set x2 : ℚ := (p.1 : ℚ) / p.2 with hx2
  have hz : ((q.1 * 100 : ℕ) : ℚ) / q.2 = 100 * x1 := by
    rw [hx1]; push_cast; ring
  rw [hz] at hperr
  obtain ⟨u, hu⟩ : ∃ u : ℚ, u = 1 / 2 ^ 53 := ⟨_, rfl⟩
  have hu0 : 0 ≤ u := by rw [hu]; positivity
  have hu1 : u ≤ 1 := by rw [hu]; norm_num
  have hc : 2 ^ 45 * (100 * (2 * u + u * u)) < 1 := by rw [hu]; norm_num
  have hyu : ∀ v : ℚ, v / 2 ^ 53 = v * u := by intro v; rw [hu]; ring
  rw [hyu] at hqerr hperr
  obtain ⟨hq_lo, hq_hi⟩ := abs_le.mp hqerr
  obtain ⟨hp_lo, hp_hi⟩ := abs_le.mp hperr
  have hx1_hi : x1 ≤ y * (1 + u) := by linarith
  have hx1_lo : y * (1 - u) ≤ x1 := by linarith
  have hx2_hi : x2 ≤ 100 * y * (1 + u) * (1 + u) := by
    have h1 : x2 ≤ 100 * x1 * (1 + u) := by linarith
    have h2 : 100 * x1 * (1 + u) ≤ 100 * (y * (1 + u)) * (1 + u) :=
      mul_le_mul_of_nonneg_right (by linarith) (by linarith)
    linarith
  have hx2_lo : 100 * y * (1 - u) * (1 - u) ≤ x2 := by
    have h1 : 100 * x1 * (1 - u) ≤ x2 := by linarith
    have h2 : 100 * (y * (1 - u)) * (1 - u) ≤ 100 * x1 * (1 - u) :=
      mul_le_mul_of_nonneg_right (by linarith) (by linarith)
    linarith
  have hslack : y * (100 * (2 * u + u * u)) < d := by
    have hc0 : (0 : ℚ) ≤ 100 * (2 * u + u * u) := by positivity
    have h1 : y * (100 * (2 * u + u * u)) ≤ 2 ^ 45 * d * (100 * (2 * u + u * u)) :=
      mul_le_mul_of_nonneg_right hyd hc0
    have h2 : d * (2 ^ 45 * (100 * (2 * u + u * u))) < d * 1 :=
      mul_lt_mul_of_pos_left hc hdpos
    linarith
  have hyuu : 0 ≤ y * (u * u) := by positivity
  have h3 : 100 * y * (1 + u) * (1 + u) = 100 * y + y * (100 * (2 * u + u * u)) := by ring
  have h4 : 100 * y * (1 - u) * (1 - u) = 100 * y - y * (100 * (2 * u + u * u))
      + 200 * (y * (u * u)) := by ring
  rw [abs_lt]
  constructor <;> linarith

/-- `Math.round` of a nonnegative fraction: `floor(x + 1/2) = M` when
`M ≤ x + 1/2 < M + 1`. -/
theorem round_eq_of_bounds (p : ℕ × ℕ) (M : ℕ) (hp2 : 0 < p.2)
    (hlo : (M : ℚ) ≤ (p.1 : ℚ) / p.2 + 1 / 2) (hhi : (p.1 : ℚ) / p.2 + 1 / 2 < M + 1) :
    (2 * p.1 + p.2) / (2 * p.2) = M := by
  have hp2q : (0 : ℚ) < p.2 := by exact_mod_cast hp2
  have hx2p : (p.1 : ℚ) / p.2 * p.2 = p.1 := div_mul_cancel₀ _ hp2q.ne'
  apply Nat.div_eq_of_lt_le
  · have h := mul_le_mul_of_nonneg_right hlo (by positivity : (0 : ℚ) ≤ 2 * p.2)
    have h' : (M : ℚ) * (2 * p.2) ≤ 2 * p.1 + p.2 := by
      calc (M : ℚ) * (2 * p.2) ≤ ((p.1 : ℚ) / p.2 + 1 / 2) * (2 * p.2) := h
        _ = 2 * ((p.1 : ℚ) / p.2 * p.2) + p.2 := by ring
        _ = 2 * p.1 + p.2 := by rw [hx2p]
    exact_mod_cast h'
  · have h := mul_lt_mul_of_pos_right hhi (by positivity : (0 : ℚ) < 2 * p.2)
    have h' : (2 : ℚ) * p.1 + p.2 < (M + 1) * (2 * p.2) := by
      calc (2 : ℚ) * p.1 + p.2 = 2 * ((p.1 : ℚ) / p.2 * p.2) + p.2 := by rw [hx2p]
        _ = ((p.1 : ℚ) / p.2 + 1 / 2) * (2 * p.2) := by ring
        _ < (M + 1) * (2 * p.2) := h
    exact_mod_cast h'

/-- The exact value `100 k / n + 1/2` split into its integer part
`exactPercent k n` and the remainder over `2 n`. -/
theorem exactPercent_split (k n : Nat) (hn : 0 < n) :
    100 * ((k : ℚ) / n) + 1 / 2 =
      exactPercent k n + ((200 * k + n) % (2 * n) : ℕ) * (1 / (2 * (n : ℚ))) := by
  unfold exactPercent
  have hnq : (0 : ℚ) < n := by exact_mod_cast hn
  have hdm : (200 : ℚ) * k + n =
      2 * n * ((200 * k + n) / (2 * n) : ℕ) + ((200 * k + n) % (2 * n) : ℕ) := by
    exact_mod_cast (Nat.div_add_mod (200 * k + n) (2 * n)).symm
  generalize (((200 * k + n) / (2 * n) : ℕ) : ℚ) = N at hdm ⊢
  generalize (((200 * k + n) % (2 * n) : ℕ) : ℚ) = r at hdm ⊢
  have h1 : 100 * ((k : ℚ) / n) + 1 / 2 = (200 * k + n) * (1 / (2 * (n : ℚ))) := by
    field_simp
    ring
  rw [h1, hdm]
  field_simp
  ring

/-- Away from exact halves the double computation agrees with the exact
rounding: if `100 k / n` is not half an odd integer and `k < 2^44`, then
`Math.round((k / n) * 100)` is the integer nearest to `100 k / n`. -/
theorem percent_eq_exactPercent (k n : Nat) (hn : 0 < n) (hk : k < 2 ^ 44)
    (htie : (200 * k + n) % (2 * n) ≠ 0) :
    percent k n = .int (exactPercent k n) := by
  by_cases hk0 : k = 0
  · subst hk0
    unfold percent exactPercent
    rw [if_neg (by omega), if_pos rfl]
    congr 1
    rw [Nat.mul_zero, Nat.zero_add]
    exact (Nat.div_eq_of_lt (by omega)).symm
  obtain ⟨p, hp, hp2, hclose⟩ := percent_close k n hn hk0 hk
  rw [hp]
  congr 1
  have hsplit := exactPercent_split k n hn
  have hrlt := Nat.mod_lt (200 * k + n) (show 0 < 2 * n by omega)
  generalize (200 * k + n) % (2 * n) = r at hsplit hrlt htie
  have hnq : (0 : ℚ) < n := by exact_mod_cast hn
  have hr1 : (1 : ℚ) ≤ r := by exact_mod_cast Nat.one_le_iff_ne_zero.mpr htie
  have hr2 : (r : ℚ) + 1 ≤ 2 * n := by exact_mod_cast hrlt
  have hdpos : (0 : ℚ) < 1 / (2 * n) := by positivity
  have hnd : 2 * (n : ℚ) * (1 / (2 * n)) = 1 := by field_simp
  have hrd1 := mul_le_mul_of_nonneg_right hr1 hdpos.le
  have hrd2 := mul_le_mul_of_nonneg_right hr2 hdpos.le
  obtain ⟨hc1, hc2⟩ := abs_lt.mp hclose
  apply round_eq_of_bounds p _ hp2 <;> linarith

/-- At an exact half the double computation gives the exact rounding or one
less. -/
theorem percent_at_tie (k n : Nat) (hn : 0 < n) (hk : k < 2 ^ 44)
    (htie : (200 * k + n) % (2 * n) = 0) :
    percent k n = .int (exactPercent k n) ∨ percent k n = .int (exactPercent k n - 1) := by
  have hsplit := exactPercent_split k n hn
  rw [htie] at hsplit
  have hnq : (0 : ℚ) < n := by exact_mod_cast hn
  have hk0 : k ≠ 0 := by
    rintro rfl
    rw [Nat.mul_zero, Nat.zero_add, Nat.mod_eq_of_lt (by omega)] at htie
    omega
  have hkq : (0 : ℚ) < k := by exact_mod_cast Nat.pos_of_ne_zero hk0
  have hN : 1 ≤ exactPercent k n := by
    have hy : (0 : ℚ) < 100 * ((k : ℚ) / n) := by positivity
    have : (0 : ℚ) < exactPercent k n := by
      push_cast at hsplit
      linarith
    exact_mod_cast this
  obtain ⟨p, hp, hp2, hclose⟩ := percent_close k n hn hk0 hk
  obtain ⟨hc1, hc2⟩ := abs_lt.mp hclose
  have hd2 : (1 : ℚ) / (2 * n) ≤ 1 / 2 := by
    rw [div_le_div_iff₀ (by positivity) (by norm_num)]
    have : (1 : ℚ) ≤ n := by exact_mod_cast hn
    linarith
  push_cast at hsplit
  rw [hp]
  by_cases hge : (exactPercent k n : ℚ) ≤ (p.1 : ℚ) / p.2 + 1 / 2
  · left
    congr 1
    apply round_eq_of_bounds p _ hp2 hge
    linarith
  · right
    congr 1
    apply round_eq_of_bounds p _ hp2
    · rw [Nat.cast_sub hN]
      push_cast
      linarith
    · rw [Nat.cast_sub hN]
      push_cast
      linarith

theorem floorLog2Ratio_lt (a b : Nat) (ha : 1 ≤ a) (hb : 1 ≤ b) :
    (a : ℚ) / b < (2 : ℚ) ^ (floorLog2Ratio a b + 1) := by
  have hbq : (0 : ℚ) < b := by exact_mod_cast hb
  have haq : (0 : ℚ) < a := by exact_mod_cast ha
  obtain ⟨_, hau⟩ := log2_spec a ha
  obtain ⟨hbl, _⟩ := log2_spec b hb
  unfold floorLog2Ratio
  simp only
  split
  · have he : (log2 a : ℤ) - (log2 b : ℤ) + 1 = ((log2 a + 1 : ℕ) : ℤ) - (log2 b : ℤ) := by
      push_cast; ring
    rw [he, zpow_sub₀ (by norm_num), zpow_natCast, zpow_natCast,
      div_lt_div_iff₀ hbq (by positivity)]
    have h1 : ((a : ℕ) : ℚ) < ((2 ^ (log2 a + 1) : ℕ) : ℚ) := by exact_mod_cast hau
    have h2 : ((2 ^ log2 b : ℕ) : ℚ) ≤ b := by exact_mod_cast hbl
    push_cast at h1 h2
    calc (a : ℚ) * 2 ^ log2 b ≤ a * b := mul_le_mul_of_nonneg_left h2 haq.le
      _ < 2 ^ (log2 a + 1) * b := mul_lt_mul_of_pos_right h1 hbq
  · rename_i hc
    rw [sub_add_cancel, ← two_zpow_toNat, div_lt_div_iff₀ hbq (by positivity)]
    have : ((a * 2 ^ (-((log2 a : ℤ) - (log2 b : ℤ))).toNat : ℕ) : ℚ)
        < ((b * 2 ^ ((log2 a : ℤ) - (log2 b : ℤ)).toNat : ℕ) : ℚ) := by
      exact_mod_cast Nat.lt_of_not_le hc
    push_cast at this
    linarith

/-- The pair `fl a b` is a double: a significand `m` with `2^52 ≤ m ≤ 2^53`
scaled by a power of two, and `m` is within half a unit of the scaled exact
quotient. -/
theorem fl_is_double (a b : Nat) (ha : 1 ≤ a) (hb : 1 ≤ b) :
    ∃ (m : ℕ) (s : ℤ), fl a b = (m * 2 ^ (-s).toNat, 2 ^ s.toNat) ∧
      2 ^ 52 ≤ m ∧ m ≤ 2 ^ 53 ∧ |(m : ℚ) - (a : ℚ) / b * (2 : ℚ) ^ s| ≤ 1 / 2 := by
  have hbq : (0 : ℚ) < b := by exact_mod_cast hb
  have hlo := floorLog2Ratio_le a b ha hb
  have hhi := floorLog2Ratio_lt a b ha hb
  generalize hs : (52 : ℤ) - floorLog2Ratio a b = s
  have hE : floorLog2Ratio a b = 52 - s := by omega
  rw [hE] at hlo hhi
  have hPQ := two_zpow_toNat s
  have hQpos : 0 < 2 ^ (-s).toNat := by positivity
  have herr := roundHalfEven_err (a * 2 ^ s.toNat) (b * 2 ^ (-s).toNat) (Nat.mul_pos hb hQpos)
  have hscale : ((a * 2 ^ s.toNat : ℕ) : ℚ) / ((b * 2 ^ (-s).toNat : ℕ) : ℚ)
      = (a : ℚ) / b * (2 : ℚ) ^ s := by
    rw [← hPQ]
    push_cast
    field_simp
  rw [hscale] at herr
  have h2s : (0 : ℚ) < (2 : ℚ) ^ s := by positivity
  have ht_lo : (2 : ℚ) ^ 52 ≤ (a : ℚ) / b * (2 : ℚ) ^ s := by
    calc (2 : ℚ) ^ 52 = (2 : ℚ) ^ (52 - s) * (2 : ℚ) ^ s := by
          rw [← zpow_add₀ (by norm_num)]
          norm_num
      _ ≤ (a : ℚ) / b * (2 : ℚ) ^ s := mul_le_mul_of_nonneg_right hlo h2s.le
  have ht_hi : (a : ℚ) / b * (2 : ℚ) ^ s < (2 : ℚ) ^ 53 := by
    calc (a : ℚ) / b * (2 : ℚ) ^ s < (2 : ℚ) ^ (52 - s + 1) * (2 : ℚ) ^ s :=
          mul_lt_mul_of_pos_right hhi h2s
      _ = (2 : ℚ) ^ 53 := by
          rw [← zpow_add₀ (by norm_num)]
          have h53 : 52 - s + 1 + s = ((53 : ℕ) : ℤ) := by push_cast; ring
          rw [h53, zpow_natCast]
  obtain ⟨he1, he2⟩ := abs_le.mp herr
  refine ⟨roundHalfEven (a * 2 ^ s.toNat) (b * 2 ^ (-s).toNat), s, ?_, ?_, ?_, herr⟩
  · unfold fl
    simp only [hs]
  · have : ((2 ^ 52 : ℕ) : ℚ) < (roundHalfEven (a * 2 ^ s.toNat) (b * 2 ^ (-s).toNat) : ℚ) + 1 := by
      push_cast
      linarith
    have h : 2 ^ 52 < roundHalfEven (a * 2 ^ s.toNat) (b * 2 ^ (-s).toNat) + 1 := by
      exact_mod_cast this
    omega
  · have : (roundHalfEven (a * 2 ^ s.toNat) (b * 2 ^ (-s).toNat) : ℚ) < ((2 ^ 53 : ℕ) : ℚ) + 1 := by
      push_cast
      linarith
    have h : roundHalfEven (a * 2 ^ s.toNat) (b * 2 ^ (-s).toNat) < 2 ^ 53 + 1 := by
      exact_mod_cast this
    omega

end JsNumber

/-! ## Theorems: Course Shell Controller -/

namespace Curs13

theorem mem_setAdd (s : List Int) (x y : Int) : y ∈ setAdd s x ↔ y = x ∨ y ∈ s := by
  unfold setAdd
  split
  · constructor
    · intro h; exact Or.inr h
    · rintro (h | h)
      · subst h; assumption
      · exact h
  · simp [List.mem_append, or_comm]

theorem nodup_setAdd (s : List Int) (x : Int) (h : s.Nodup) : (setAdd s x).Nodup := by
  unfold setAdd
  split
  · exact h
  · rename_i hx
    refine List.Nodup.append h (List.nodup_singleton x) ?_
    intro a ha hb
    rw [List.mem_singleton] at hb
    exact hx (hb ▸ ha)

theorem navigateToLesson_of_inRange (s : State) (index : Int) (markComplete : Bool)
    (h0 : 0 ≤ index) (hn : index < (s.lessonCount : Int)) :
    navigateToLesson s index markComplete =
      saveProgress (updateUI
        { s with
          completedLessons :=
            if markComplete ∧ s.currentIndex ≠ index then setAdd s.completedLessons s.currentIndex
            else s.completedLessons
          currentIndex := index
          dom := { s.dom with active := some index } }) := by
  unfold navigateToLesson
  rw [if_neg (by omega)]

@[simp] theorem saveProgress_currentIndex (s : State) :
    (saveProgress s).currentIndex = s.currentIndex := rfl

@[simp] theorem saveProgress_completedLessons (s : State) :
    (saveProgress s).completedLessons = s.completedLessons := rfl

@[simp] theorem saveProgress_lessonCount (s : State) :
    (saveProgress s).lessonCount = s.lessonCount := rfl

@[simp] theorem saveProgress_dom (s : State) : (saveProgress s).dom = s.dom := rfl

@[simp] theorem saveProgress_storage (s : State) :
    (saveProgress s).storage = some (jsonStringify s.completedLessons s.currentIndex) := rfl

@[simp] theorem updateUI_currentIndex (s : State) :
    (updateUI s).currentIndex = s.currentIndex := rfl

@[simp] theorem updateUI_completedLessons (s : State) :
    (updateUI s).completedLessons = s.completedLessons := rfl

@[simp] theorem updateUI_lessonCount (s : State) :
    (updateUI s).lessonCount = s.lessonCount := rfl

@[simp] theorem updateUI_storage (s : State) : (updateUI s).storage = s.storage := rfl

/-- C1: for a target `i` with `0 ≤ i < lessonCount` that differs from the current
index `j`, `navigateToLesson(i, true)` makes `i` the current index and makes
the completed set the old one with `j` inserted: an element is in the new set
exactly when it is `j` or was in the old set, and no duplicate appears. -/
theorem navigateToLesson_marks_departed (s : State) (i : Int)
    (h0 : 0 ≤ i) (hn : i < (s.lessonCount : Int)) (hne : i ≠ s.currentIndex) :
    (navigateToLesson s i true).currentIndex = i ∧
    (∀ x, x ∈ (navigateToLesson s i true).completedLessons ↔
      x = s.currentIndex ∨ x ∈ s.completedLessons) ∧
    (s.completedLessons.Nodup → (navigateToLesson s i true).completedLessons.Nodup) := by
  rw [navigateToLesson_of_inRange s i true h0 hn]
  have hc : (true = true ∧ s.currentIndex ≠ i) := ⟨rfl, fun h => hne h.symm⟩
  refine ⟨rfl, ?_, ?_⟩
  · intro x
    show x ∈ (if true = true ∧ s.currentIndex ≠ i then setAdd s.completedLessons s.currentIndex
      else s.completedLessons) ↔ _
    rw [if_pos hc]
    exact mem_setAdd _ _ _
  · intro hd
    show (if true = true ∧ s.currentIndex ≠ i then setAdd s.completedLessons s.currentIndex
      else s.completedLessons).Nodup
    rw [if_pos hc]
    exact nodup_setAdd _ _ hd

/-- A state on lesson 2 of 12 with lessons 0 and 1 completed. -/
theorem navigateToLesson_marks_departed_witness :
    (navigateToLesson
        { lessonCount := 12, currentIndex := 2, completedLessons := [0, 1],
          storage := none, dom := fullDom } 5 true).currentIndex = 5 ∧
    (∀ x, x ∈ (navigateToLesson
        { lessonCount := 12, currentIndex := 2, completedLessons := [0, 1],
          storage := none, dom := fullDom } 5 true).completedLessons ↔
      x = 2 ∨ x ∈ [0, 1]) ∧
    (([0, 1] : List Int).Nodup → (navigateToLesson
        { lessonCount := 12, currentIndex := 2, completedLessons := [0, 1],
          storage := none, dom := fullDom } 5 true).completedLessons.Nodup) :=
  navigateToLesson_marks_departed
    { lessonCount := 12, currentIndex := 2, completedLessons := [0, 1],
      storage := none, dom := fullDom } 5 (by decide) (by decide) (by decide)

/-- C2: for a target `i < 0` or `i ≥ lessonCount` and either value of the flag,
`navigateToLesson(i, flag)` returns the state it was given: the current index,
the completed set, the entry under `'curs13_progress'` and the page are all
unchanged. -/
theorem navigateToLesson_out_of_range (s : State) (i : Int) (flag : Bool)
    (h : i < 0 ∨ i ≥ (s.lessonCount : Int)) :
    (navigateToLesson s i flag).currentIndex = s.currentIndex ∧
    (navigateToLesson s i flag).completedLessons = s.completedLessons ∧
    (navigateToLesson s i flag).storage = s.storage ∧
    navigateToLesson s i flag = s := by
  have hs : navigateToLesson s i flag = s := by
    unfold navigateToLesson
    rw [if_pos h]
  rw [hs]
  exact ⟨rfl, rfl, rfl, rfl⟩

/-- Target 12 on a course of 12 lessons, with an entry already stored. -/
theorem navigateToLesson_out_of_range_witness :
    (navigateToLesson
        { lessonCount := 12, currentIndex := 11, completedLessons := [0],
          storage := some (.progress (some [0]) (some 11)), dom := fullDom } 12 true).currentIndex
      = 11 ∧
    (navigateToLesson
        { lessonCount := 12, currentIndex := 11, completedLessons := [0],
          storage := some (.progress (some [0]) (some 11)), dom := fullDom } 12 true).completedLessons
      = [0] ∧
    (navigateToLesson
        { lessonCount := 12, currentIndex := 11, completedLessons := [0],
          storage := some (.progress (some [0]) (some 11)), dom := fullDom } 12 true).storage
      = some (.progress (some [0]) (some 11)) ∧
    navigateToLesson
        { lessonCount := 12, currentIndex := 11, completedLessons := [0],
          storage := some (.progress (some [0]) (some 11)), dom := fullDom } 12 true
      = { lessonCount := 12, currentIndex := 11, completedLessons := [0],
          storage := some (.progress (some [0]) (some 11)), dom := fullDom } :=
  navigateToLesson_out_of_range
    { lessonCount := 12, currentIndex := 11, completedLessons := [0],
      storage := some (.progress (some [0]) (some 11)), dom := fullDom } 12 true
    (Or.inr (by decide))

/-- C3, as stated, fails: on a course of 12 lessons `resetCourse` ends with an
entry under `'curs13_progress'`, because the closing `navigateToLesson(0, false)`
runs `saveProgress` after `removeItem`. -/
theorem resetCourse_leaves_entry :
    (resetCourse
      { lessonCount := 12, currentIndex := 11, completedLessons := [0, 1, 2],
        storage := some (.progress (some [0, 1, 2]) (some 11)), dom := fullDom }).storage
      = some (.progress (some []) (some 0)) ∧
    (resetCourse
      { lessonCount := 12, currentIndex := 11, completedLessons := [0, 1, 2],
        storage := some (.progress (some [0, 1, 2]) (some 11)), dom := fullDom }).storage
      ≠ none := by
  decide

/-- C3, amended: after `resetCourse` the completed set is empty and the current
index is 0; the store holds no entry under `'curs13_progress'` when the course
has no lesson, and otherwise holds the entry that `saveProgress` writes for the
empty completed set and index 0. -/
theorem resetCourse_clears (s : State) :
    (resetCourse s).completedLessons = [] ∧
    (resetCourse s).currentIndex = 0 ∧
    (resetCourse s).storage =
      if s.lessonCount = 0 then none else some (jsonStringify [] 0) := by
  have key : ∀ t : State, t.lessonCount = s.lessonCount → t.completedLessons = [] →
      t.currentIndex = 0 → t.storage = none →
      (navigateToLesson t 0 false).completedLessons = [] ∧
      (navigateToLesson t 0 false).currentIndex = 0 ∧
      (navigateToLesson t 0 false).storage =
        if s.lessonCount = 0 then none else some (jsonStringify [] 0) := by
    intro t hcount hcompleted hindex hstorage
    by_cases hn : s.lessonCount = 0
    · have hr : navigateToLesson t 0 false = t := by
        unfold navigateToLesson
        rw [if_pos (Or.inr (by simp [hcount, hn]))]
      rw [hr, if_pos hn]
      exact ⟨hcompleted, hindex, hstorage⟩
    · rw [navigateToLesson_of_inRange t 0 false (le_refl 0)
        (by rw [hcount]; exact_mod_cast Nat.pos_of_ne_zero hn), if_neg hn]
      simp [hcompleted]
  exact key _ rfl rfl rfl rfl

theorem navigateToLesson_currentIndex (s : State) (i : Int) (flag : Bool) :
    (navigateToLesson s i flag).currentIndex =
      if i < 0 ∨ i ≥ (s.lessonCount : Int) then s.currentIndex else i := by
  unfold navigateToLesson
  split <;> rfl

theorem navigateToLesson_lessonCount (s : State) (i : Int) (flag : Bool) :
    (navigateToLesson s i flag).lessonCount = s.lessonCount := by
  unfold navigateToLesson
  split <;> rfl

/-- The invariant of the data model: the current index is 0 or a valid index. -/
theorem navigateToLesson_valid (s : State) (i : Int) (flag : Bool)
    (h : s.currentIndex = 0 ∨ (0 ≤ s.currentIndex ∧ s.currentIndex < (s.lessonCount : Int))) :
    (navigateToLesson s i flag).currentIndex = 0 ∨
      (0 ≤ (navigateToLesson s i flag).currentIndex ∧
        (navigateToLesson s i flag).currentIndex < ((navigateToLesson s i flag).lessonCount : Int)) := by
  rw [navigateToLesson_currentIndex, navigateToLesson_lessonCount]
  split
  · exact h
  · right; omega

theorem clickPrev_valid (s : State)
    (h : s.currentIndex = 0 ∨ (0 ≤ s.currentIndex ∧ s.currentIndex < (s.lessonCount : Int))) :
    (clickPrev s).currentIndex = 0 ∨
      (0 ≤ (clickPrev s).currentIndex ∧
        (clickPrev s).currentIndex < ((clickPrev s).lessonCount : Int)) := by
  unfold clickPrev
  split
  · exact h
  · exact navigateToLesson_valid s _ true h

theorem clickNext_valid (s : State)
    (h : s.currentIndex = 0 ∨ (0 ≤ s.currentIndex ∧ s.currentIndex < (s.lessonCount : Int))) :
    (clickNext s).currentIndex = 0 ∨
      (0 ≤ (clickNext s).currentIndex ∧
        (clickNext s).currentIndex < ((clickNext s).lessonCount : Int)) := by
  unfold clickNext
  split
  · exact h
  · split
    · exact h
    · exact h
    · exact navigateToLesson_valid s _ true h

theorem handleKeyboardNavigation_valid (s : State) (focusInText : Bool) (key : Key)
    (h : s.currentIndex = 0 ∨ (0 ≤ s.currentIndex ∧ s.currentIndex < (s.lessonCount : Int))) :
    (handleKeyboardNavigation s focusInText key).currentIndex = 0 ∨
      (0 ≤ (handleKeyboardNavigation s focusInText key).currentIndex ∧
        (handleKeyboardNavigation s focusInText key).currentIndex <
          ((handleKeyboardNavigation s focusInText key).lessonCount : Int)) := by
  unfold handleKeyboardNavigation
  split
  · exact h
  · split
    · exact navigateToLesson_valid s _ true h
    · split
      · exact navigateToLesson_valid s _ true h
      · exact h

/-- Every event keeps the current index at 0 or inside the lesson list, once
it is there. -/
theorem step_valid (s : State) (e : Event)
    (h : s.currentIndex = 0 ∨ (0 ≤ s.currentIndex ∧ s.currentIndex < (s.lessonCount : Int))) :
    (step s e).currentIndex = 0 ∨
      (0 ≤ (step s e).currentIndex ∧ (step s e).currentIndex < ((step s e).lessonCount : Int)) := by
  cases e with
  | navigate index markComplete => exact navigateToLesson_valid s index markComplete h
  | prev => exact clickPrev_valid s h
  | next => exact clickNext_valid s h
  | reset => exact navigateToLesson_valid _ 0 false (Or.inl rfl)
  | overlay => exact h
  | keydown focusInText key => exact handleKeyboardNavigation_valid s focusInText key h

/-- A run keeps the current index at 0 or inside the lesson list when `init`
ends there. -/
theorem run_valid (lessonCount : Nat) (storage : Option Payload) (dom : Dom)
    (events : List Event)
    (h : (init lessonCount storage dom).currentIndex = 0 ∨
      (0 ≤ (init lessonCount storage dom).currentIndex ∧
        (init lessonCount storage dom).currentIndex <
          ((init lessonCount storage dom).lessonCount : Int))) :
    (run lessonCount storage dom events).currentIndex = 0 ∨
      (0 ≤ (run lessonCount storage dom events).currentIndex ∧
        (run lessonCount storage dom events).currentIndex <
          ((run lessonCount storage dom events).lessonCount : Int)) := by
  unfold run
  generalize init lessonCount storage dom = s0 at h
  induction events generalizing s0 with
  | nil => exact h
  | cons e es ih => exact ih (step s0 e) (step_valid s0 e h)

theorem loadProgress_valid (t : State)
    (hstore : ∀ completed c, t.storage = some (.progress completed (some c)) →
      c = 0 ∨ (0 ≤ c ∧ c < (t.lessonCount : Int)))
    (h : t.currentIndex = 0) :
    (loadProgress t).currentIndex = 0 ∨
      (0 ≤ (loadProgress t).currentIndex ∧
        (loadProgress t).currentIndex < ((loadProgress t).lessonCount : Int)) := by
  unfold loadProgress
  simp only
  split
  · exact navigateToLesson_valid _ _ false (by
      rename_i hr
      right
      simpa [inRange] using hr)
  · rename_i hr
    left
    rcases hst : t.storage with _ | saved
    · simp only [hst]
      exact h
    · cases saved with
      | malformed text =>
        simp only [hst, jsonParse, ite_self]
        exact h
      | progress completed currentIndex =>
        cases currentIndex with
        | none => simp [hst, Payload.truthy, jsonParse]
        | some c =>
          rcases hstore completed c hst with hc | hc
          · simp [hst, Payload.truthy, jsonParse, hc]
          · exfalso
            apply hr
            simp only [hst, Payload.truthy, jsonParse, if_true, inRange]
            split <;> simp <;> omega

/-- With a stored entry that is missing, not JSON, without `currentIndex`, or
with a `currentIndex` that is 0 or a valid index, every state of a run has a
current index that is 0 or a valid index. -/
theorem run_valid_of_entry (lessonCount : Nat) (storage : Option Payload) (dom : Dom)
    (events : List Event)
    (hstore : ∀ completed c, storage = some (.progress completed (some c)) →
      c = 0 ∨ (0 ≤ c ∧ c < (lessonCount : Int))) :
    (run lessonCount storage dom events).currentIndex = 0 ∨
      (0 ≤ (run lessonCount storage dom events).currentIndex ∧
        (run lessonCount storage dom events).currentIndex <
          ((run lessonCount storage dom events).lessonCount : Int)) := by
  apply run_valid
  unfold init
  exact loadProgress_valid _ hstore rfl

/-- C4, the failing input: with 12 lessons and the stored entry
`{"completed": [], "currentIndex": 12}`, `init` ends with current index 12,
which is neither 0 nor a valid index; `loadProgress` tests `lessons[12]`, skips
the navigation and leaves the restored value in place.  The forward button
then targets 13 and changes nothing, and the previous button records the
ordinal 12 as a completed lesson. -/
theorem init_keeps_out_of_range_index :
    (run 12 (some (.progress (some []) (some 12))) fullDom []).currentIndex = 12 ∧
    (run 12 (some (.progress (some []) (some 12))) fullDom []).lessonCount = 12 ∧
    (run 12 (some (.progress (some []) (some 12))) fullDom []).dom.active = none ∧
    (run 12 (some (.progress (some []) (some 12))) fullDom [.next]).currentIndex = 12 ∧
    (run 12 (some (.progress (some []) (some 12))) fullDom [.prev]).completedLessons = [12] := by
  decide

theorem mem_foldl_setAdd (xs acc : List Int) (x : Int) :
    x ∈ xs.foldl setAdd acc ↔ x ∈ acc ∨ x ∈ xs := by
  induction xs generalizing acc with
  | nil => simp
  | cons y ys ih =>
    rw [List.foldl_cons, ih, mem_setAdd, List.mem_cons]
    constructor
    · rintro ((h | h) | h)
      · exact Or.inr (Or.inl h)
      · exact Or.inl h
      · exact Or.inr (Or.inr h)
    · rintro (h | h | h)
      · exact Or.inl (Or.inr h)
      · exact Or.inl (Or.inl h)
      · exact Or.inr h

theorem foldl_setAdd_of_nodup (xs acc : List Int) (h : (acc ++ xs).Nodup) :
    xs.foldl setAdd acc = acc ++ xs := by
  induction xs generalizing acc with
  | nil => simp
  | cons y ys ih =>
    have hy : y ∉ acc := by
      intro hmem
      have := List.nodup_append.mp h
      exact this.2.2 hmem (List.mem_cons_self y ys)
    have hstep : setAdd acc y = acc ++ [y] := by
      unfold setAdd
      rw [if_neg hy]
    rw [List.foldl_cons, hstep, ih (acc ++ [y]) (by simpa using h)]
    simp

theorem mem_setFrom (xs : List Int) (x : Int) : x ∈ setFrom xs ↔ x ∈ xs := by
  unfold setFrom
  rw [mem_foldl_setAdd]
  simp

theorem setFrom_of_nodup (xs : List Int) (h : xs.Nodup) : setFrom xs = xs := by
  unfold setFrom
  rw [foldl_setAdd_of_nodup xs [] (by simpa using h)]
  simp

theorem navigateToLesson_false_completedLessons (s : State) (i : Int) :
    (navigateToLesson s i false).completedLessons = s.completedLessons := by
  unfold navigateToLesson
  split
  · rfl
  · show (if false = true ∧ s.currentIndex ≠ i then setAdd s.completedLessons s.currentIndex
      else s.completedLessons) = s.completedLessons
    rw [if_neg (fun h => Bool.false_ne_true h.1)]

theorem loadProgress_of_entry (t : State) (completed : List Int) (currentIndex : Int)
    (h : t.storage = some (jsonStringify completed currentIndex)) :
    (loadProgress t).currentIndex = currentIndex ∧
    (loadProgress t).completedLessons = setFrom completed := by
  have hzero : (if currentIndex = 0 then (0 : Int) else currentIndex) = currentIndex := by
    split
    · rename_i hc; exact hc.symm
    · rfl
  unfold loadProgress
  rw [h]
  simp only [jsonStringify, Payload.truthy, jsonParse, if_true, Option.getD_some, hzero]
  split
  · rw [navigateToLesson_currentIndex, navigateToLesson_false_completedLessons]
    refine ⟨?_, rfl⟩
    split <;> rfl
  · exact ⟨rfl, rfl⟩

/-- C5: `loadProgress`, run in any module state whose store holds the entry
that `saveProgress` writes for the state `s`, restores the current index of
`s` and a completed set with the same elements as that of `s` (the same list,
when the saved set has no duplicate, as every JavaScript `Set` has).  This
covers every `lessonCount ≥ 1`, every current index in `[0, lessonCount)` and
every completed set of lesson ordinals. -/
theorem loadProgress_saveProgress (s t : State) :
    (loadProgress { t with storage := (saveProgress s).storage }).currentIndex
      = s.currentIndex ∧
    (∀ x, x ∈ (loadProgress { t with storage := (saveProgress s).storage }).completedLessons ↔
      x ∈ s.completedLessons) ∧
    (s.completedLessons.Nodup →
      (loadProgress { t with storage := (saveProgress s).storage }).completedLessons
        = s.completedLessons) := by
  obtain ⟨h1, h2⟩ := loadProgress_of_entry { t with storage := (saveProgress s).storage }
    s.completedLessons s.currentIndex rfl
  refine ⟨h1, ?_, ?_⟩
  · intro x
    rw [h2]
    exact mem_setFrom _ _
  · intro hd
    rw [h2]
    exact setFrom_of_nodup _ hd

/-- C8: whatever text that is not JSON is stored under `'curs13_progress'`,
`init` (a total function: the `SyntaxError` of `JSON.parse` is caught inside
`loadProgress` and nothing else throws) ends with an empty completed set and
current index 0. -/
theorem init_malformed (lessonCount : Nat) (text : String) (dom : Dom) :
    (init lessonCount (some (.malformed text)) dom).completedLessons = [] ∧
    (init lessonCount (some (.malformed text)) dom).currentIndex = 0 := by
  have hload : ∀ t : State, t.storage = some (.malformed text) → t.completedLessons = [] →
      t.currentIndex = 0 →
      (loadProgress t).completedLessons = [] ∧ (loadProgress t).currentIndex = 0 := by
    intro t hst hcompleted hindex
    unfold loadProgress
    rw [hst]
    simp only [jsonParse, ite_self]
    split
    · rw [navigateToLesson_currentIndex, navigateToLesson_false_completedLessons, hindex]
      exact ⟨hcompleted, by split <;> rfl⟩
    · exact ⟨hcompleted, hindex⟩
  unfold init
  exact hload _ rfl rfl rfl

theorem navigateToLesson_btnNext (s : State) (i : Int) (flag : Bool)
    (h0 : 0 ≤ i) (hn : i < (s.lessonCount : Int)) :
    (navigateToLesson s i flag).dom.btnNext =
      s.dom.btnNext.map (fun _ =>
        if decide (i = (s.lessonCount : Int) - 1) then
          { disabled := false, label := "Finalizare", onclick := some .showCompletionModal }
        else
          { disabled := false, label := "Următorul", onclick := some .navigateNext }) := by
  rw [navigateToLesson_of_inRange s i flag h0 hn]
  rfl

theorem navigateToLesson_congratsModal (s : State) (i : Int) (flag : Bool) :
    (navigateToLesson s i flag).dom.congratsModal = s.dom.congratsModal := by
  unfold navigateToLesson
  split <;> rfl

/-- C7: let `s1` be the state a navigation to an in-range target ends in, on a
page that has the forward button and the completion dialog, and let its current
index be the last one, `lessonCount - 1`.  Then the handler bound to the forward
button is `showCompletionModal` (label `Finalizare`), not the call
`navigateToLesson(currentIndex + 1)`; activating the button runs it, which
leaves the current index at `lessonCount - 1`, makes the completed set the
previous one with `lessonCount - 1` inserted, stores exactly that state under
`'curs13_progress'` and opens the dialog. -/
theorem clickNext_on_last_lesson (s s1 : State) (i : Int) (flag : Bool)
    (h0 : 0 ≤ i) (hn : i < (s.lessonCount : Int))
    (hs1 : s1 = navigateToLesson s i flag)
    (hlast : s1.currentIndex = (s1.lessonCount : Int) - 1)
    (hbtn : s.dom.btnNext.isSome = true) (hmodal : s.dom.congratsModal.isSome = true) :
    s1.dom.btnNext =
      some { disabled := false, label := "Finalizare", onclick := some .showCompletionModal } ∧
    clickNext s1 = showCompletionModal s1 ∧
    (clickNext s1).currentIndex = (s1.lessonCount : Int) - 1 ∧
    (∀ x, x ∈ (clickNext s1).completedLessons ↔
      x = (s1.lessonCount : Int) - 1 ∨ x ∈ s1.completedLessons) ∧
    (clickNext s1).storage =
      some (jsonStringify (clickNext s1).completedLessons ((s1.lessonCount : Int) - 1)) ∧
    (clickNext s1).dom.congratsModal = some true := by
  have hcount : s1.lessonCount = s.lessonCount := by
    rw [hs1, navigateToLesson_lessonCount]
  have hindex : s1.currentIndex = i := by
    rw [hs1, navigateToLesson_currentIndex, if_neg (by omega)]
  have hi : i = (s.lessonCount : Int) - 1 := by
    rw [← hindex, hlast, hcount]
  obtain ⟨b, hb⟩ := Option.isSome_iff_exists.mp hbtn
  obtain ⟨m, hm⟩ := Option.isSome_iff_exists.mp hmodal
  have hbutton : s1.dom.btnNext =
      some { disabled := false, label := "Finalizare", onclick := some .showCompletionModal } := by
    rw [hs1, navigateToLesson_btnNext s i flag h0 hn, hb, Option.map_some', if_pos (by simpa using hi)]
  have hclick : clickNext s1 = showCompletionModal s1 := by
    unfold clickNext
    rw [hbutton]
  have hdialog : s1.dom.congratsModal = some m := by
    rw [hs1, navigateToLesson_congratsModal, hm]
  refine ⟨hbutton, hclick, ?_, ?_, ?_, ?_⟩
  · rw [hclick]
    exact hlast
  · intro x
    rw [hclick, ← hlast]
    exact mem_setAdd _ _ _
  · rw [hclick, ← hlast]
    rfl
  · rw [hclick]
    show Option.map (fun _ => true) s1.dom.congratsModal = some true
    rw [hdialog]
    rfl

/-- Lesson 10 of 12 with the first ten lessons completed; the forward button
navigates to lesson 11, the last one. -/
theorem clickNext_on_last_lesson_witness :
    (navigateToLesson
        { lessonCount := 12, currentIndex := 10, completedLessons := [0, 1, 2, 3, 4, 5, 6, 7, 8, 9],
          storage := none, dom := fullDom } 11 true).dom.btnNext =
      some { disabled := false, label := "Finalizare", onclick := some .showCompletionModal } ∧
    (clickNext (navigateToLesson
        { lessonCount := 12, currentIndex := 10, completedLessons := [0, 1, 2, 3, 4, 5, 6, 7, 8, 9],
          storage := none, dom := fullDom } 11 true)).completedLessons =
      [0, 1, 2, 3, 4, 5, 6, 7, 8, 9, 10, 11] ∧
    (clickNext (navigateToLesson
        { lessonCount := 12, currentIndex := 10, completedLessons := [0, 1, 2, 3, 4, 5, 6, 7, 8, 9],
          storage := none, dom := fullDom } 11 true)).dom.congratsModal = some true :=
  have h := clickNext_on_last_lesson
    { lessonCount := 12, currentIndex := 10, completedLessons := [0, 1, 2, 3, 4, 5, 6, 7, 8, 9],
      storage := none, dom := fullDom }
    (navigateToLesson
      { lessonCount := 12, currentIndex := 10, completedLessons := [0, 1, 2, 3, 4, 5, 6, 7, 8, 9],
        storage := none, dom := fullDom } 11 true)
    11 true (by decide) (by decide) rfl (by decide) (by decide) (by decide)
  ⟨h.1, by decide, h.2.2.2.2.2⟩

theorem navigateToLesson_progressPercent (s : State) (i : Int) (flag : Bool)
    (h0 : 0 ≤ i) (hn : i < (s.lessonCount : Int)) :
    (navigateToLesson s i flag).dom.progressPercent =
      s.dom.progressPercent.map (fun _ =>
        JsNumber.percent (navigateToLesson s i flag).completedLessons.length s.lessonCount) := by
  rw [navigateToLesson_of_inRange s i flag h0 hn]
  rfl

theorem resetCourse_progressPercent (s : State) (hn : 1 ≤ s.lessonCount) :
    (resetCourse s).dom.progressPercent = s.dom.progressPercent.map (fun _ => .int 0) := by
  have key : ∀ t : State, 1 ≤ t.lessonCount → t.completedLessons = [] →
      (navigateToLesson t 0 false).dom.progressPercent =
        t.dom.progressPercent.map (fun _ => .int 0) := by
    intro t ht hc
    have hzero : JsNumber.percent 0 t.lessonCount = .int 0 := by
      unfold JsNumber.percent
      rw [if_neg (by omega), if_pos rfl]
    rw [navigateToLesson_progressPercent t 0 false (le_refl 0) (by exact_mod_cast ht),
      navigateToLesson_false_completedLessons, hc, List.length_nil, hzero]
  exact key _ hn rfl

/-- C6, as stated, fails twice.  On a course of 40 lessons the 23rd forward
navigation leaves 23 completed lessons and displays 57, while
`round(100 * 23 / 40) = round(57.5) = 58`: the double product `(23 / 40) * 100`
is `57.49999999999999`.  On a course of 12 lessons the 12th activation of the
forward button is Complete Course: it brings the completed set to 12 elements
and the display stays at 92, not `round(100 * 12 / 12) = 100`. -/
theorem progress_display_counterexamples :
    ((run 40 none fullDom (List.replicate 23 .next)).completedLessons.length = 23 ∧
      (run 40 none fullDom (List.replicate 23 .next)).dom.progressPercent = some (.int 57) ∧
      JsNumber.exactPercent 23 40 = 58 ∧
      (run 40 none fullDom (List.replicate 23 .next)).dom.progressPercent ≠
        some (.int (JsNumber.exactPercent
          (run 40 none fullDom (List.replicate 23 .next)).completedLessons.length 40))) ∧
    ((run 12 none fullDom (List.replicate 11 .next)).completedLessons.length = 11 ∧
      (run 12 none fullDom (List.replicate 12 .next)).completedLessons.length = 12 ∧
      (run 12 none fullDom (List.replicate 12 .next)).dom.progressPercent = some (.int 92) ∧
      JsNumber.exactPercent 12 12 = 100 ∧
      (run 12 none fullDom (List.replicate 12 .next)).dom.progressPercent ≠
        some (.int (JsNumber.exactPercent
          (run 12 none fullDom (List.replicate 12 .next)).completedLessons.length 12))) := by
  decide

/-- C6, amended: on a page with the progress element and `lessonCount ≥ 1`,
after `navigateToLesson` to an in-range target (either flag) and after
`resetCourse` the displayed percentage is `Math.round((size / length) * 100)`
in double arithmetic on the new completed set.  Whenever `100 * size / length`
is not exactly halfway between two integers (and `size < 2^44`) this is the
integer nearest to `100 * size / length`; after a reset it is 0; and 3
completed of 12 lessons display 25. -/
theorem progress_display_after_mutation (s : State)
    (hn : 1 ≤ s.lessonCount) (hbar : s.dom.progressPercent.isSome = true) :
    (∀ (i : Int) (flag : Bool), 0 ≤ i → i < (s.lessonCount : Int) →
      (navigateToLesson s i flag).dom.progressPercent =
        some (JsNumber.percent (navigateToLesson s i flag).completedLessons.length
          s.lessonCount)) ∧
    (∀ (i : Int) (flag : Bool), 0 ≤ i → i < (s.lessonCount : Int) →
      (navigateToLesson s i flag).completedLessons.length < 2 ^ 44 →
      (200 * (navigateToLesson s i flag).completedLessons.length + s.lessonCount)
        % (2 * s.lessonCount) ≠ 0 →
      (navigateToLesson s i flag).dom.progressPercent =
        some (.int (JsNumber.exactPercent (navigateToLesson s i flag).completedLessons.length
          s.lessonCount))) ∧
    ((resetCourse s).completedLessons = [] ∧
      (resetCourse s).dom.progressPercent = some (.int 0) ∧
      JsNumber.exactPercent 0 s.lessonCount = 0) ∧
    (∀ (i : Int) (flag : Bool), 0 ≤ i → i < (s.lessonCount : Int) → s.lessonCount = 12 →
      (navigateToLesson s i flag).completedLessons.length = 3 →
      (navigateToLesson s i flag).dom.progressPercent = some (.int 25)) := by
  obtain ⟨shown, hshown⟩ := Option.isSome_iff_exists.mp hbar
  have hnav : ∀ (i : Int) (flag : Bool), 0 ≤ i → i < (s.lessonCount : Int) →
      (navigateToLesson s i flag).dom.progressPercent =
        some (JsNumber.percent (navigateToLesson s i flag).completedLessons.length
          s.lessonCount) := by
    intro i flag h0 hi
    rw [navigateToLesson_progressPercent s i flag h0 hi, hshown]
    rfl
  refine ⟨hnav, ?_, ?_, ?_⟩
  · intro i flag h0 hi hsize htie
    rw [hnav i flag h0 hi, JsNumber.percent_eq_exactPercent _ _ (by omega) hsize htie]
  · have hreset : (resetCourse s).completedLessons = [] :=
      navigateToLesson_false_completedLessons _ 0
    refine ⟨hreset, ?_, ?_⟩
    · rw [resetCourse_progressPercent s hn, hshown]
      rfl
    · unfold JsNumber.exactPercent
      rw [Nat.mul_zero, Nat.zero_add]
      exact Nat.div_eq_of_lt (by omega)
  · intro i flag h0 hi h12 h3
    rw [hnav i flag h0 hi, h3, h12]
    decide

/-- Lesson 2 of 12 with lessons 0 and 1 completed: the move to lesson 5
completes a third lesson and the display reads 25. -/
theorem progress_display_after_mutation_witness :
    (navigateToLesson
        { lessonCount := 12, currentIndex := 2, completedLessons := [0, 1],
          storage := none, dom := fullDom } 5 true).completedLessons.length = 3 ∧
    (navigateToLesson
        { lessonCount := 12, currentIndex := 2, completedLessons := [0, 1],
          storage := none, dom := fullDom } 5 true).dom.progressPercent = some (.int 25) ∧
    (resetCourse
        { lessonCount := 12, currentIndex := 2, completedLessons := [0, 1],
          storage := none, dom := fullDom }).dom.progressPercent = some (.int 0) :=
  have h := progress_display_after_mutation
    { lessonCount := 12, currentIndex := 2, completedLessons := [0, 1],
      storage := none, dom := fullDom } (by decide) (by decide)
  ⟨by decide, h.2.2.2 5 true (by decide) (by decide) rfl (by decide), h.2.2.1.2.1⟩

theorem navigateToLesson_of_not_inRange (s : State) (i : Int) (flag : Bool)
    (h : i < 0 ∨ i ≥ (s.lessonCount : Int)) : navigateToLesson s i flag = s := by
  unfold navigateToLesson
  rw [if_pos h]

theorem updateUI_synced (t : State)
    (hprev : t.dom.btnPrev.isSome = true) (hnext : t.dom.btnNext.isSome = true) :
    buttonsSynced (updateUI t) := by
  obtain ⟨p, hp⟩ := Option.isSome_iff_exists.mp hprev
  obtain ⟨b, hb⟩ := Option.isSome_iff_exists.mp hnext
  unfold buttonsSynced updateUI updateProgress updateNavigationButtons
  simp only [hp, hb, Option.map_some', Option.isSome_some, Option.bind_some, decide_eq_true_eq,
    true_and]
  split <;> rfl

theorem buttonsSynced_btnNext (s : State) (h : buttonsSynced s) :
    s.dom.btnNext.isSome = true := by
  obtain ⟨_, hbind⟩ := h
  cases hb : s.dom.btnNext with
  | none =>
    rw [hb] at hbind
    exact Option.noConfusion hbind
  | some b => rfl

theorem navigateToLesson_synced (s : State) (i : Int) (flag : Bool) (h : buttonsSynced s) :
    buttonsSynced (navigateToLesson s i flag) := by
  by_cases hr : i < 0 ∨ i ≥ (s.lessonCount : Int)
  · rw [navigateToLesson_of_not_inRange s i flag hr]
    exact h
  · rw [navigateToLesson_of_inRange s i flag (by omega) (by omega)]
    exact updateUI_synced _ h.1 (buttonsSynced_btnNext s h)

theorem showCompletionModal_synced (s : State) (h : buttonsSynced s) :
    buttonsSynced (showCompletionModal s) := h

theorem resetCourse_synced (s : State) (hn : 1 ≤ s.lessonCount) (h : buttonsSynced s) :
    buttonsSynced (resetCourse s) := by
  have key : ∀ t : State, t.lessonCount = s.lessonCount → t.dom.btnPrev = s.dom.btnPrev →
      t.dom.btnNext = s.dom.btnNext → buttonsSynced (navigateToLesson t 0 false) := by
    intro t hcount hprev hnext
    rw [navigateToLesson_of_inRange t 0 false (le_refl 0)
      (by rw [hcount]; exact_mod_cast hn)]
    exact updateUI_synced _ (by rw [← h.1]; exact congrArg Option.isSome hprev)
      (by rw [← buttonsSynced_btnNext s h]; exact congrArg Option.isSome hnext)
  exact key _ rfl rfl rfl

theorem clickPrev_synced (s : State) (h : buttonsSynced s) : buttonsSynced (clickPrev s) := by
  unfold clickPrev
  split
  · exact h
  · exact navigateToLesson_synced s _ true h

theorem clickNext_synced (s : State) (h : buttonsSynced s) : buttonsSynced (clickNext s) := by
  unfold clickNext
  split
  · exact h
  · split
    · exact h
    · exact showCompletionModal_synced s h
    · exact navigateToLesson_synced s _ true h

theorem handleKeyboardNavigation_synced (s : State) (focusInText : Bool) (key : Key)
    (h : buttonsSynced s) : buttonsSynced (handleKeyboardNavigation s focusInText key) := by
  unfold handleKeyboardNavigation
  split
  · exact h
  · split
    · exact navigateToLesson_synced s _ true h
    · split
      · exact navigateToLesson_synced s _ true h
      · exact h

theorem step_lessonCount (s : State) (e : Event) : (step s e).lessonCount = s.lessonCount := by
  cases e with
  | navigate index markComplete => exact navigateToLesson_lessonCount s index markComplete
  | prev =>
    show (clickPrev s).lessonCount = _
    unfold clickPrev
    split
    · rfl
    · exact navigateToLesson_lessonCount s _ true
  | next =>
    show (clickNext s).lessonCount = _
    unfold clickNext
    split
    · rfl
    · split
      · rfl
      · rfl
      · exact navigateToLesson_lessonCount s _ true
  | reset => exact navigateToLesson_lessonCount _ 0 false
  | overlay => rfl
  | keydown focusInText key =>
    show (handleKeyboardNavigation s focusInText key).lessonCount = _
    unfold handleKeyboardNavigation
    split
    · rfl
    · split
      · exact navigateToLesson_lessonCount s _ true
      · split
        · exact navigateToLesson_lessonCount s _ true
        · rfl

/-- Every event keeps the buttons in step with the current index, on a course
with at least one lesson. -/
theorem step_synced (s : State) (e : Event) (hn : 1 ≤ s.lessonCount) (h : buttonsSynced s) :
    buttonsSynced (step s e) := by
  cases e with
  | navigate index markComplete => exact navigateToLesson_synced s index markComplete h
  | prev => exact clickPrev_synced s h
  | next => exact clickNext_synced s h
  | reset => exact resetCourse_synced s hn h
  | overlay => exact h
  | keydown focusInText key => exact handleKeyboardNavigation_synced s focusInText key h

theorem navigateToLesson_buttons_isSome (s : State) (i : Int) (flag : Bool) :
    (navigateToLesson s i flag).dom.btnPrev.isSome = s.dom.btnPrev.isSome ∧
    (navigateToLesson s i flag).dom.btnNext.isSome = s.dom.btnNext.isSome := by
  unfold navigateToLesson
  split
  · exact ⟨rfl, rfl⟩
  · constructor
    · show (Option.map _ s.dom.btnPrev).isSome = _
      cases s.dom.btnPrev <;> rfl
    · show (Option.map _ s.dom.btnNext).isSome = _
      cases s.dom.btnNext <;> rfl

theorem loadProgress_buttons_isSome (t : State) :
    (loadProgress t).dom.btnPrev.isSome = t.dom.btnPrev.isSome ∧
    (loadProgress t).dom.btnNext.isSome = t.dom.btnNext.isSome ∧
    (loadProgress t).lessonCount = t.lessonCount := by
  have key : ∀ s1 : State, s1.dom = t.dom → s1.lessonCount = t.lessonCount →
      (if inRange s1 s1.currentIndex = true then navigateToLesson s1 s1.currentIndex false
        else s1).dom.btnPrev.isSome = t.dom.btnPrev.isSome ∧
      (if inRange s1 s1.currentIndex = true then navigateToLesson s1 s1.currentIndex false
        else s1).dom.btnNext.isSome = t.dom.btnNext.isSome ∧
      (if inRange s1 s1.currentIndex = true then navigateToLesson s1 s1.currentIndex false
        else s1).lessonCount = t.lessonCount := by
    intro s1 hdom hcount
    split
    · obtain ⟨h1, h2⟩ := navigateToLesson_buttons_isSome s1 s1.currentIndex false
      rw [h1, h2, navigateToLesson_lessonCount, hdom, hcount]
      exact ⟨rfl, rfl, rfl⟩
    · rw [hdom, hcount]
      exact ⟨rfl, rfl, rfl⟩
  unfold loadProgress
  apply key
  · split
    · rfl
    · split
      · split <;> rfl
      · rfl
  · split
    · rfl
    · split
      · split <;> rfl
      · rfl

theorem init_synced (lessonCount : Nat) (storage : Option Payload) (dom : Dom)
    (hprev : dom.btnPrev.isSome = true) (hnext : dom.btnNext.isSome = true) :
    buttonsSynced (init lessonCount storage dom) ∧
    (init lessonCount storage dom).lessonCount = lessonCount := by
  unfold init
  obtain ⟨h1, h2, h3⟩ := loadProgress_buttons_isSome
    { lessonCount := lessonCount, currentIndex := 0, completedLessons := [],
      storage := storage, dom := dom }
  exact ⟨updateUI_synced _ (h1.trans hprev) (h2.trans hnext), h3⟩

/-- On a page with both buttons and at least one lesson, every state of a run
has the buttons in step with the current index. -/
theorem run_synced (lessonCount : Nat) (storage : Option Payload) (dom : Dom)
    (events : List Event) (hn : 1 ≤ lessonCount)
    (hprev : dom.btnPrev.isSome = true) (hnext : dom.btnNext.isSome = true) :
    buttonsSynced (run lessonCount storage dom events) ∧
    (run lessonCount storage dom events).lessonCount = lessonCount := by
  unfold run
  have h := init_synced lessonCount storage dom hprev hnext
  generalize init lessonCount storage dom = s0 at h
  induction events generalizing s0 with
  | nil => exact h
  | cons e es ih =>
    exact ih (step s0 e)
      ⟨step_synced s0 e (by rw [h.2]; exact hn) h.1, (step_lessonCount s0 e).trans h.2⟩

theorem arrowLeft_eq_clickPrev (s : State) (hprev : s.dom.btnPrev.isSome = true) :
    handleKeyboardNavigation s false .arrowLeft = clickPrev s := by
  obtain ⟨p, hp⟩ := Option.isSome_iff_exists.mp hprev
  unfold handleKeyboardNavigation clickPrev
  rw [hp]
  simp only [Bool.false_eq_true, if_false, true_and]
  split
  · rfl
  · rw [if_neg (by simp), navigateToLesson_of_not_inRange s _ true (Or.inl (by omega))]

theorem arrowRight_eq_clickNext (s : State) (h : buttonsSynced s)
    (hlast : s.currentIndex ≠ (s.lessonCount : Int) - 1) :
    handleKeyboardNavigation s false .arrowRight = clickNext s := by
  obtain ⟨_, hbind⟩ := h
  rw [if_neg hlast] at hbind
  have hclick : clickNext s = navigateToLesson s (s.currentIndex + 1) true := by
    unfold clickNext
    cases hb : s.dom.btnNext with
    | none =>
      rw [hb] at hbind
      exact Option.noConfusion hbind
    | some b =>
      rw [hb] at hbind
      have hon : b.onclick = some NextAction.navigateNext := hbind
      simp only [hon]
  rw [hclick]
  unfold handleKeyboardNavigation
  simp only [Bool.false_eq_true, if_false, true_and]
  rw [if_neg (by simp)]
  split
  · rfl
  · rw [navigateToLesson_of_not_inRange s _ true (Or.inr (by omega))]

theorem arrowRight_on_last (s : State) (h : buttonsSynced s)
    (hlast : s.currentIndex = (s.lessonCount : Int) - 1) :
    handleKeyboardNavigation s false .arrowRight = s ∧
    clickNext s = showCompletionModal s := by
  obtain ⟨_, hbind⟩ := h
  rw [if_pos hlast] at hbind
  constructor
  · unfold handleKeyboardNavigation
    simp only [Bool.false_eq_true, if_false, true_and]
    rw [if_neg (by simp), if_neg (by omega)]
  · unfold clickNext
    cases hb : s.dom.btnNext with
    | none =>
      rw [hb] at hbind
      exact Option.noConfusion hbind
    | some b =>
      rw [hb] at hbind
      have hon : b.onclick = some NextAction.showCompletionModal := hbind
      simp only [hon]

/-- C11, as stated, fails on the last lesson: after eleven forward steps on a
course of 12 lessons the current index is 11; there the `ArrowRight` handler
returns the state unchanged (its guard `currentIndex < lessons.length - 1` is
false), while the forward button runs `showCompletionModal`, which opens the
dialog and adds index 11 to the completed set. -/
theorem arrowRight_differs_on_last_lesson :
    (run 12 none fullDom (List.replicate 11 .next)).currentIndex = 11 ∧
    handleKeyboardNavigation (run 12 none fullDom (List.replicate 11 .next)) false .arrowRight
      = run 12 none fullDom (List.replicate 11 .next) ∧
    (run 12 none fullDom (List.replicate 11 .next)).dom.congratsModal = some false ∧
    (clickNext (run 12 none fullDom (List.replicate 11 .next))).dom.congratsModal = some true ∧
    (clickNext (run 12 none fullDom (List.replicate 11 .next))).completedLessons
      = [0, 1, 2, 3, 4, 5, 6, 7, 8, 9, 10, 11] ∧
    handleKeyboardNavigation (run 12 none fullDom (List.replicate 11 .next)) false .arrowRight
      ≠ clickNext (run 12 none fullDom (List.replicate 11 .next)) := by
  decide

/-- C11, amended: let `s` be any state of a run (`init` followed by any events)
on a page with both buttons and at least one lesson, with focus outside a text
input or text area.  The `ArrowLeft` handler produces the same state as the
previous button.  The `ArrowRight` handler produces the same state as the
forward button whenever the current index is not the last one; on the last
lesson `ArrowRight` leaves the state unchanged, while the forward button runs
`showCompletionModal`. -/
theorem arrows_match_buttons (lessonCount : Nat) (storage : Option Payload) (dom : Dom)
    (events : List Event) (s : State)
    (hs : s = run lessonCount storage dom events) (hn : 1 ≤ lessonCount)
    (hprev : dom.btnPrev.isSome = true) (hnext : dom.btnNext.isSome = true) :
    handleKeyboardNavigation s false .arrowLeft = clickPrev s ∧
    (s.currentIndex ≠ (lessonCount : Int) - 1 →
      handleKeyboardNavigation s false .arrowRight = clickNext s) ∧
    (s.currentIndex = (lessonCount : Int) - 1 →
      handleKeyboardNavigation s false .arrowRight = s ∧
      clickNext s = showCompletionModal s) := by
  obtain ⟨hsync, hcount⟩ := run_synced lessonCount storage dom events hn hprev hnext
  rw [← hs] at hsync hcount
  refine ⟨arrowLeft_eq_clickPrev s hsync.1, ?_, ?_⟩
  · intro hlast
    exact arrowRight_eq_clickNext s hsync (by rw [hcount]; exact hlast)
  · intro hlast
    exact arrowRight_on_last s hsync (by rw [hcount]; exact hlast)

/-- Lesson 2 of 12, reached by two forward steps. -/
theorem arrows_match_buttons_witness :
    handleKeyboardNavigation (run 12 none fullDom [.next, .next]) false .arrowLeft
      = clickPrev (run 12 none fullDom [.next, .next]) ∧
    ((run 12 none fullDom [.next, .next]).currentIndex ≠ ((12 : Nat) : Int) - 1 →
      handleKeyboardNavigation (run 12 none fullDom [.next, .next]) false .arrowRight
        = clickNext (run 12 none fullDom [.next, .next])) ∧
    ((run 12 none fullDom [.next, .next]).currentIndex = ((12 : Nat) : Int) - 1 →
      handleKeyboardNavigation (run 12 none fullDom [.next, .next]) false .arrowRight
        = run 12 none fullDom [.next, .next] ∧
      clickNext (run 12 none fullDom [.next, .next])
        = showCompletionModal (run 12 none fullDom [.next, .next])) :=
  arrows_match_buttons 12 none fullDom [.next, .next] (run 12 none fullDom [.next, .next])
    rfl (by decide) (by decide) (by decide)

end Curs13

/-! ## Theorems: Lesson Page Navigator -/

namespace Curs14

theorem includesChars_iff (pat text : List Char) :
    includesChars pat text = true ↔ pat <:+: text := by
  induction text with
  | nil =>
    unfold includesChars
    rw [List.isEmpty_iff, List.infix_nil]
  | cons c cs ih =>
    unfold includesChars
    rw [Bool.or_eq_true, ih, List.isPrefixOf_iff_prefix, List.infix_cons_iff]

theorem includes_iff (path id : String) : includes path id = true ↔ id.data <:+: path.data :=
  includesChars_iff _ _

theorem scanFrom_spec (path : String) (rest : List Lesson) (i : Nat) :
    (scanFrom path rest i = -1 ∧ ∀ l ∈ rest, includes path l.id = false) ∨
    (∃ k l, rest.get? k = some l ∧ scanFrom path rest i = ((i + k : Nat) : Int) ∧
      includes path l.id = true ∧
      ∀ j l1, j < k → rest.get? j = some l1 → includes path l1.id = false) := by
  induction rest generalizing i with
  | nil =>
    left
    exact ⟨rfl, by simp⟩
  | cons lesson rest ih =>
    unfold scanFrom
    by_cases h : includes path lesson.id = true
    · right
      refine ⟨0, lesson, rfl, ?_, h, ?_⟩
      · rw [if_pos h]; rfl
      · intro j l1 hj; omega
    · rw [if_neg h]
      rcases ih (i + 1) with ⟨h1, h2⟩ | ⟨k, l, hk, hres, hl, hmin⟩
      · left
        refine ⟨h1, ?_⟩
        intro l hl
        rcases List.mem_cons.mp hl with rfl | hl
        · simpa using h
        · exact h2 l hl
      · right
        refine ⟨k + 1, l, by simpa using hk, ?_, hl, ?_⟩
        · rw [hres]
          congr 1
          omega
        · intro j l1 hj hget
          cases j with
          | zero =>
            simp only [List.get?_cons_zero, Option.some.injEq] at hget
            subst hget
            simpa using h
          | succ j =>
            exact hmin j l1 (by omega) (by simpa using hget)

theorem get?_lt_of_eq_some {α : Type} (xs : List α) (k : Nat) (x : α)
    (h : xs.get? k = some x) : k < xs.length := by
  by_contra hlt
  rw [List.get?_eq_none.mpr (by omega)] at h
  exact Option.noConfusion h

theorem getCurrentLessonIndex_lt (path : String) (i : Nat)
    (h : getCurrentLessonIndex path = (i : Int)) : i < 13 := by
  unfold getCurrentLessonIndex at h
  rcases scanFrom_spec path lessons 0 with ⟨h1, _⟩ | ⟨k, l, hk, hres, _, _⟩
  · rw [h1] at h
    omega
  · have hlt := get?_lt_of_eq_some lessons k l hk
    rw [hres] at h
    have : lessons.length = 13 := rfl
    omega

/-- C10: `getCurrentLessonIndex` returns -1 exactly when no identifier of the
catalog is a substring of the path; otherwise it returns the smallest catalog
index whose identifier is a substring of the path; and when it returns -1,
`createNavBar` ends at once: the entry under `'curs14_completed'` is the one it
found and no navigation bar is produced. -/
theorem getCurrentLessonIndex_first_match (path : String) :
    (getCurrentLessonIndex path = -1 ↔ ∀ l ∈ lessons, ¬ l.id.data <:+: path.data) ∧
    (getCurrentLessonIndex path ≠ -1 →
      ∃ i l, lessons.get? i = some l ∧ getCurrentLessonIndex path = (i : Int) ∧
        l.id.data <:+: path.data ∧
        ∀ j l1, j < i → lessons.get? j = some l1 → ¬ l1.id.data <:+: path.data) ∧
    (getCurrentLessonIndex path = -1 →
      ∀ storage, createNavBar path storage = .ok (storage, none)) := by
  refine ⟨?_, ?_, ?_⟩
  · unfold getCurrentLessonIndex
    rcases scanFrom_spec path lessons 0 with ⟨h1, h2⟩ | ⟨k, l, hk, hres, hl, _⟩
    · constructor
      · intro _ l hl hsub
        have := h2 l hl
        rw [(includes_iff path l.id).mpr hsub] at this
        exact Bool.noConfusion this
      · intro _
        exact h1
    · constructor
      · intro h
        rw [hres] at h
        omega
      · intro h
        exact absurd ((includes_iff path l.id).mp hl) (h l (List.get?_mem hk))
  · intro hne
    unfold getCurrentLessonIndex at hne ⊢
    rcases scanFrom_spec path lessons 0 with ⟨h1, _⟩ | ⟨k, l, hk, hres, hl, hmin⟩
    · exact absurd h1 hne
    · refine ⟨k, l, hk, by rw [hres]; simp, (includes_iff path l.id).mp hl, ?_⟩
      intro j l1 hj hget hsub
      have := hmin j l1 hj hget
      rw [(includes_iff path l1.id).mpr hsub] at this
      exact Bool.noConfusion this
  · intro h storage
    unfold createNavBar
    simp only [h, if_true]

theorem readCompleted_markCompleted (storage : Option Stored) (completed : List Int)
    (index : Int) (h : readCompleted storage = .ok completed) :
    ∃ storage1 completed1, markCompleted storage index = .ok storage1 ∧
      readCompleted storage1 = .ok completed1 ∧
      (∀ x, x ∈ completed1 ↔ x = index ∨ x ∈ completed) := by
  unfold markCompleted
  rw [h]
  by_cases hmem : index ∈ completed
  · refine ⟨storage, completed, by simp [hmem], h, ?_⟩
    intro x
    constructor
    · exact Or.inr
    · rintro (rfl | hx)
      · exact hmem
      · exact hx
  · refine ⟨some (.array (completed ++ [index])), completed ++ [index], by simp [hmem], rfl, ?_⟩
    intro x
    simp [or_comm]

theorem createNavBar_renders (path : String) (storage : Option Stored) (completed : List Int)
    (i : Nat) (hpath : getCurrentLessonIndex path = (i : Int))
    (hstore : readCompleted storage = .ok completed) :
    ∃ storage1 bar, createNavBar path storage = .ok (storage1, some bar) ∧
      bar.label = "Lecția " ++ toString (i + 1) ++ " / 13" ∧
      (i = 0 → bar.prev = .disabled "Înapoi") ∧
      (0 < i → ∃ l, lessons.get? (i - 1) = some l ∧
        bar.prev = .link { href := l.src, title := l.title, text := "Înapoi" }) ∧
      (i < 12 → ∃ l, lessons.get? (i + 1) = some l ∧
        bar.next = { href := l.src, title := l.title, text := "Următorul" }) ∧
      (i = 12 → bar.next =
        { href := "../../html/main.html", title := "Finalizare", text := "Finalizare" }) := by
  have hlt := getCurrentLessonIndex_lt path i hpath
  obtain ⟨storage1, completed1, hmark, hread, _⟩ :=
    readCompleted_markCompleted storage completed (i : Int) hstore
  have hprogress :
      getProgress storage1 = .ok (JsNumber.percent completed1.length lessons.length) := by
    unfold getProgress
    rw [hread]
  unfold createNavBar
  simp only [hpath, hmark, hprogress]
  interval_cases i
  all_goals
    refine ⟨_, _, rfl, ?_, ?_, ?_, ?_, ?_⟩
    all_goals
      first
        | rfl
        | (intro h; exact absurd h (by decide))
        | (intro _; rfl)
        | (intro _; exact ⟨_, rfl, rfl⟩)

theorem createNavBar_error (path : String) (storage : Option Stored) (e : JsError)
    (hne : getCurrentLessonIndex path ≠ -1) (hstore : readCompleted storage = .error e) :
    createNavBar path storage = .error e := by
  unfold createNavBar markCompleted
  simp only [hne, if_false, hstore]

/-- C9: let the page path resolve to the catalog index `i` (so `0 ≤ i < 13`).
Whenever the entry under `'curs14_completed'` can be read (it is absent, empty
or a JSON array) `createNavBar` renders a bar; and every bar it renders has the
label `Lecția (i+1) / 13`, a previous slot that is the disabled placeholder when
`i = 0` and a link to the page of `lessons[i-1]` when `i > 0`, and a next slot
that is a link to the page of `lessons[i+1]` when `i < 12` and the `Finalizare`
link to the course overview when `i = 12`. -/
theorem createNavBar_slots (path : String) (storage : Option Stored) (i : Nat)
    (hpath : getCurrentLessonIndex path = (i : Int)) :
    (∀ completed, readCompleted storage = .ok completed →
      ∃ storage1 bar, createNavBar path storage = .ok (storage1, some bar)) ∧
    (∀ storage1 bar, createNavBar path storage = .ok (storage1, some bar) →
      bar.label = "Lecția " ++ toString (i + 1) ++ " / 13" ∧
      (i = 0 → bar.prev = .disabled "Înapoi") ∧
      (0 < i → ∃ l, lessons.get? (i - 1) = some l ∧
        bar.prev = .link { href := l.src, title := l.title, text := "Înapoi" }) ∧
      (i < 12 → ∃ l, lessons.get? (i + 1) = some l ∧
        bar.next = { href := l.src, title := l.title, text := "Următorul" }) ∧
      (i = 12 → bar.next =
        { href := "../../html/main.html", title := "Finalizare", text := "Finalizare" })) := by
  constructor
  · intro completed hstore
    obtain ⟨storage1, bar, h, _⟩ := createNavBar_renders path storage completed i hpath hstore
    exact ⟨storage1, bar, h⟩
  · intro storage1 bar hrender
    cases hstore : readCompleted storage with
    | error e =>
      rw [createNavBar_error path storage e (by rw [hpath]; omega) hstore] at hrender
      exact Except.noConfusion hrender
    | ok completed =>
      obtain ⟨storage2, bar2, h, hprops⟩ :=
        createNavBar_renders path storage completed i hpath hstore
      rw [h] at hrender
      injection hrender with hpair
      injection hpair with _ hbar
      injection hbar with hbar
      rw [← hbar]
      exact hprops

/-- The page of lesson `14.2.3`, catalog index 5, on a first visit. -/
theorem createNavBar_slots_witness :
    ((∀ completed, readCompleted none = .ok completed →
      ∃ storage1 bar,
        createNavBar "/AC-Modern/curs14/lessons/14.2.3/index.html" none
          = .ok (storage1, some bar)) ∧
    (∀ storage1 bar,
      createNavBar "/AC-Modern/curs14/lessons/14.2.3/index.html" none = .ok (storage1, some bar) →
      bar.label = "Lecția " ++ toString (5 + 1) ++ " / 13" ∧
      (5 = 0 → bar.prev = .disabled "Înapoi") ∧
      (0 < 5 → ∃ l, lessons.get? (5 - 1) = some l ∧
        bar.prev = .link { href := l.src, title := l.title, text := "Înapoi" }) ∧
      (5 < 12 → ∃ l, lessons.get? (5 + 1) = some l ∧
        bar.next = { href := l.src, title := l.title, text := "Următorul" }) ∧
      (5 = 12 → bar.next =
        { href := "../../html/main.html", title := "Finalizare", text := "Finalizare" }))) ∧
    createNavBar "/AC-Modern/curs14/lessons/14.2.3/index.html" none =
      .ok (some (.array [5]), some
        { prev := .link
            { href := "../14.2.2/index.html", title := "Mapare Directă", text := "Înapoi" }
          label := "Lecția 6 / 13"
          progress := .int 8
          home := { href := "../../html/main.html", title := "Cuprins", text := "Cuprins" }
          next :=
            { href := "../14.2.4/index.html", title := "Politici de Înlocuire",
              text := "Următorul" } }) :=
  ⟨createNavBar_slots "/AC-Modern/curs14/lessons/14.2.3/index.html" none 5 (by decide), by rfl⟩

end Curs14
